import Mathlib

/-!
Verification development for the TextFlow terminal text editor.

The C++ sources are shallowly embedded in Lean:
- std::string values become List Char; indexing s[i] becomes charAt, which
  returns the null character out of range (C++ guarantees s[size()] is the
  null character; larger indices are never reached by the embedded code).
- C++ int values become Int, or Nat where the source value is manifestly a
  count that stays non-negative; no arithmetic here can overflow a 32-bit
  int on the inputs considered, and the 64-bit hash arithmetic of the
  rolling-hash search stays far below the long long range, so unbounded
  integers are a faithful model.
- loops become fuel-based recursion; fuel is always chosen at call sites
  large enough to be irrelevant on terminating executions, and a loop of
  the source that does not terminate is modelled by fuel exhaustion.
- the storage tree uses shared mutable nodes in the source, so it is
  embedded with an explicit store (arena) of nodes addressed by index;
  reading a dangling index yields a default empty node.
-/

set_option maxRecDepth 10000

namespace TextFlow

/-- Reads character i of a C++ string; index equal to the size yields the
null character, as guaranteed for std::string::operator[]. -/
def charAt (s : List Char) (i : Nat) : Char := s.getD i (Char.ofNat 0)

/-- C locale tolower restricted to ASCII. -/
def cToLower (c : Char) : Char :=
  if 'A' ≤ c ∧ c ≤ 'Z' then Char.ofNat (c.toNat + 32) else c

def lowerStr (s : List Char) : List Char := s.map cToLower

/-! ## Search and replace engine (search_replace.cpp) -/

/-- Loop of SearchReplace::computeLPSArray. -/
def computeLPSLoop (pattern : List Char) : Nat → Array Nat → Nat → Nat → Array Nat
  | 0, lps, _, _ => lps
  | fuel+1, lps, len, i =>
    if i < pattern.length then
      if charAt pattern i = charAt pattern len then
        computeLPSLoop pattern fuel (lps.set! i (len+1)) (len+1) (i+1)
      else
        if len ≠ 0 then
          computeLPSLoop pattern fuel lps (lps.getD (len-1) 0) i
        else
          computeLPSLoop pattern fuel (lps.set! i 0) 0 (i+1)
    else lps

/-- SearchReplace::computeLPSArray. -/
def computeLPSArray (pattern : List Char) : Array Nat :=
  computeLPSLoop pattern (2 * pattern.length + 2) (Array.mkArray pattern.length 0) 0 1

/-- Main loop of SearchReplace::kmpSearch. -/
def kmpLoop (text pattern : List Char) (lps : Array Nat) :
    Nat → Nat → Nat → List Nat → List Nat
  | 0, _, _, result => result
  | fuel+1, i, j, result =>
    if i < text.length then
      let p := if charAt pattern j = charAt text i then (i+1, j+1) else (i, j)
      let i := p.1
      let j := p.2
      if j = pattern.length then
        kmpLoop text pattern lps fuel i (lps.getD (j-1) 0) (result ++ [i - j])
      else if i < text.length ∧ charAt pattern j ≠ charAt text i then
        if j ≠ 0 then
          kmpLoop text pattern lps fuel i (lps.getD (j-1) 0) result
        else
          kmpLoop text pattern lps fuel (i+1) j result
      else
        kmpLoop text pattern lps fuel i j result
    else result

/-- SearchReplace::kmpSearch. -/
def kmpSearch (text pattern : List Char) : List Nat :=
  if pattern.length = 0 ∨ text.length < pattern.length then []
  else
    kmpLoop text pattern (computeLPSArray pattern)
      (2 * text.length + pattern.length + 4) 0 0 []

/-- SearchReplace::buildBadCharTable: last-occurrence distances for the
first patternLen-1 characters; later entries shadow earlier ones, which is
modelled by consing in front and looking up front-first. -/
def buildBadCharTable (pattern : List Char) : List (Char × Nat) :=
  (List.range (pattern.length - 1)).foldl
    (fun tbl i => (charAt pattern i, pattern.length - 1 - i) :: tbl) []

/-- Lookup in the bad-character table; a missing key yields 0, matching the
value-initialising behaviour of std::unordered_map::operator[]. -/
def badCharLookup (tbl : List (Char × Nat)) (c : Char) : Nat :=
  ((tbl.find? (fun e => e.1 = c)).map (fun e => e.2)).getD 0

/-- SearchReplace::buildGoodSuffixTable: uniformly the pattern length. -/
def buildGoodSuffixTable (pattern : List Char) : Array Nat :=
  Array.mkArray pattern.length pattern.length

/-- Inner right-to-left comparison loop of boyerMooreSearch. -/
def bmInner (text pattern : List Char) (shift : Int) : Nat → Int → Int
  | 0, j => j
  | fuel+1, j =>
    if 0 ≤ j ∧ charAt pattern j.toNat = charAt text (shift + j).toNat then
      bmInner text pattern shift fuel (j - 1)
    else j

/-- Outer alignment loop of SearchReplace::boyerMooreSearch. -/
def bmLoop (text pattern : List Char) (bad : List (Char × Nat)) (good : Array Nat) :
    Nat → Int → List Int → List Int
  | 0, _, result => result
  | fuel+1, shift, result =>
    if shift ≤ (text.length : Int) - (pattern.length : Int) then
      let j := bmInner text pattern shift (pattern.length + 1) ((pattern.length : Int) - 1)
      if j < 0 then
        let inc : Int :=
          if shift + (pattern.length : Int) < (text.length : Int) then
            (pattern.length : Int) -
              (badCharLookup bad (charAt text (shift + pattern.length).toNat) : Int)
          else 1
        bmLoop text pattern bad good fuel (shift + inc) (result ++ [shift])
      else
        let inc : Int :=
          max (good.getD j.toNat 0 : Int)
            (j - (badCharLookup bad (charAt text (shift + j).toNat) : Int))
        bmLoop text pattern bad good fuel (shift + inc) result
    else result

/-- SearchReplace::boyerMooreSearch. -/
def boyerMooreSearch (text pattern : List Char) : List Int :=
  if pattern.length = 0 ∨ text.length < pattern.length then []
  else
    bmLoop text pattern (buildBadCharTable pattern) (buildGoodSuffixTable pattern)
      (text.length + 2) 0 []

/-- SearchReplace::computeHash: polynomial hash of str[start..start+length)
accumulated from the last character backwards. -/
def computeHashLoop (str : List Char) (base md : Int) : Nat → Int → Int → Int → Int
  | 0, hash, _, _ => hash
  | n+1, hash, power, i =>
    let hash := (hash + ((charAt str i.toNat).toNat : Int) * power % md) % md
    computeHashLoop str base md n hash (power * base % md) (i - 1)

def computeHash (str : List Char) (start length : Nat) (base md : Int) : Int :=
  computeHashLoop str base md length 0 1 ((start : Int) + (length : Int) - 1)

/-- SearchReplace::computePower: modular exponentiation by squaring. -/
def computePowerLoop (md : Int) : Nat → Int → Int → Nat → Int
  | 0, result, _, _ => result
  | fuel+1, result, base, e =>
    if 0 < e then
      let result := if e % 2 = 1 then result * base % md else result
      computePowerLoop md fuel result (base * base % md) (e / 2)
    else result

def computePower (base : Int) (e : Nat) (md : Int) : Int :=
  computePowerLoop md (e + 2) 1 (base % md) e

/-- Character-by-character verification used on a hash hit. -/
def rkVerify (text pattern : List Char) (i : Nat) : Bool :=
  (List.range pattern.length).all (fun j => charAt text (i + j) = charAt pattern j)

/-- Main loop of SearchReplace::rabinKarpSearch. The rolling update uses
C truncated remainder followed by the explicit negative correction of the
source. -/
def rkLoop (text pattern : List Char) (base md power patternHash : Int) :
    Nat → Nat → Int → List Nat → List Nat
  | 0, _, _, result => result
  | fuel+1, i, textHash, result =>
    if i + pattern.length ≤ text.length then
      let result :=
        if patternHash = textHash ∧ rkVerify text pattern i then result ++ [i] else result
      if i + pattern.length < text.length then
        let th := Int.tmod
          (base * (textHash - ((charAt text i).toNat : Int) * power) +
            ((charAt text (i + pattern.length)).toNat : Int)) md
        let th := if th < 0 then th + md else th
        rkLoop text pattern base md power patternHash fuel (i+1) th result
      else
        rkLoop text pattern base md power patternHash fuel (i+1) textHash result
    else result

/-- SearchReplace::rabinKarpSearch. -/
def rabinKarpSearch (text pattern : List Char) : List Nat :=
  if pattern.length = 0 ∨ text.length < pattern.length then []
  else
    let base : Int := 256
    let md : Int := 1000000007
    let patternHash := computeHash pattern 0 pattern.length base md
    let textHash := computeHash text 0 pattern.length base md
    let power := computePower base (pattern.length - 1) md
    rkLoop text pattern base md power patternHash (text.length + 2) 0 textHash []

/-! ## Password strength scoring (encryption.cpp, PasswordManager) -/

/-- C locale islower restricted to ASCII input. -/
def cIsLower (c : Char) : Bool := 97 ≤ c.toNat && c.toNat ≤ 122

/-- C locale isupper restricted to ASCII input. -/
def cIsUpper (c : Char) : Bool := 65 ≤ c.toNat && c.toNat ≤ 90

/-- C locale isdigit. -/
def cIsDigit (c : Char) : Bool := 48 ≤ c.toNat && c.toNat ≤ 57

/-- C locale isalnum restricted to ASCII input. -/
def cIsAlnum (c : Char) : Bool := cIsLower c || cIsUpper c || cIsDigit c

structure PasswordStrength where
  score : Nat
  feedback : String
  isStrong : Bool
deriving DecidableEq

/-- Character-class scan of checkPasswordStrength: the flags are set by an
else-if chain in the order lower, upper, digit, non-alphanumeric. -/
def classFlags (password : List Char) : Bool × Bool × Bool × Bool :=
  password.foldl
    (fun f c =>
      if cIsLower c then (true, f.2.1, f.2.2.1, f.2.2.2)
      else if cIsUpper c then (f.1, true, f.2.2.1, f.2.2.2)
      else if cIsDigit c then (f.1, f.2.1, true, f.2.2.2)
      else if ¬ cIsAlnum c then (f.1, f.2.1, f.2.2.1, true)
      else f)
    (false, false, false, false)

/-- PasswordManager::checkPasswordStrength. -/
def checkPasswordStrength (password : List Char) : PasswordStrength :=
  let score := 0
  let score := if 8 ≤ password.length then score + 1 else score
  let score := if 12 ≤ password.length then score + 1 else score
  let score := if 16 ≤ password.length then score + 1 else score
  let flags := classFlags password
  let score := if flags.1 then score + 1 else score
  let score := if flags.2.1 then score + 1 else score
  let score := if flags.2.2.1 then score + 1 else score
  let score := if flags.2.2.2 then score + 1 else score
  let isStrong := 6 ≤ score
  let feedback :=
    if score < 3 then
      "Very weak password. Use at least 8 characters with mixed case, numbers, and symbols."
    else if score < 5 then
      "Weak password. Add more variety of characters."
    else if score < 7 then
      "Moderate password. Consider making it longer or adding more complexity."
    else
      "Strong password!"
  ⟨score, feedback, isStrong⟩

/-- Spec-side scoring formula, written from the wording of the claim: one
point each for length at least 8, 12, 16, and one point each for containing
a lowercase letter, an uppercase letter, a digit, and a non-alphanumeric
symbol. -/
def specPasswordScore (p : List Char) : Nat :=
  (if 8 ≤ p.length then 1 else 0) + (if 12 ≤ p.length then 1 else 0) +
  (if 16 ≤ p.length then 1 else 0) +
  (if p.any cIsLower then 1 else 0) + (if p.any cIsUpper then 1 else 0) +
  (if p.any cIsDigit then 1 else 0) +
  (if p.any (fun c => ¬ cIsAlnum c) then 1 else 0)

/-! ## NLP client (nlp_client.cpp) — disconnected-path behaviour.

The HTTP transport and JSON parsing are outside the embeddable surface;
the request round trip of each capability call is abstracted as an oracle
function stored in the client, returning either the parsed response or an
error standing for any transport or parse exception. Raw JSON sub-values
are abstracted as strings. The disconnected guard, the try/catch fallback
values and the field-extraction fallbacks are translated literally. -/

structure GrammarResponse where
  corrected_text : List Char
  errors : List String
  suggestions : List String
deriving DecidableEq

structure SentimentResponse where
  sentiment : List Char
  confidence : ℚ
  scores : List (String × ℚ)
  breakdown : List String
deriving DecidableEq

structure NLPClient where
  connected : Bool
  grammarService : List Char → List Char → Bool → Except String GrammarResponse
  correctService : List Char → List Char → Except String (Option (List Char))
  sentimentService : List Char → List Char → Except String SentimentResponse

/-- NLPClient::checkGrammar. Not connected: the empty grammar response.
Connected: the service result, with any exception caught and converted to
the same empty response. -/
def NLPClient.checkGrammar (c : NLPClient) (text language : List Char)
    (autoCorrect : Bool) : GrammarResponse :=
  if ¬ c.connected then ⟨[], [], []⟩
  else
    match c.grammarService text language autoCorrect with
    | .ok r => r
    | .error _ => ⟨[], [], []⟩

/-- NLPClient::correctGrammar. Not connected: the input text unchanged;
connected: the corrected_text field when present, otherwise the input, and
the input again on any exception. -/
def NLPClient.correctGrammar (c : NLPClient) (text language : List Char) : List Char :=
  if ¬ c.connected then text
  else
    match c.correctService text language with
    | .ok (some s) => s
    | .ok none => text
    | .error _ => text

/-- NLPClient::analyzeSentiment. Not connected: neutral sentiment with
confidence 0.5; connected: the service result, with exceptions converted
to the same neutral value. -/
def NLPClient.analyzeSentiment (c : NLPClient) (text granularity : List Char) :
    SentimentResponse :=
  if ¬ c.connected then ⟨"neutral".toList, 1/2, [], []⟩
  else
    match c.sentimentService text granularity with
    | .ok r => r
    | .error _ => ⟨"neutral".toList, 1/2, [], []⟩

/-- A disconnected client with arbitrary concrete oracles, used for
concrete evaluations. -/
def offlineClient : NLPClient :=
  ⟨false, fun _ _ _ => .error "unreachable", fun _ _ => .error "unreachable",
    fun _ _ => .error "unreachable"⟩

/-! ## Compression engine (compression.cpp) -/

inductive HuffmanNode where
  | leaf (character : Char) (frequency : Nat)
  | node (frequency : Nat) (left right : HuffmanNode)
deriving DecidableEq

def HuffmanNode.frequency : HuffmanNode → Nat
  | .leaf _ f => f
  | .node f _ _ => f

def HuffmanNode.isLeaf : HuffmanNode → Bool
  | .leaf _ _ => true
  | .node _ _ _ => false

def HuffmanNode.character : HuffmanNode → Char
  | .leaf c _ => c
  | .node _ _ _ => Char.ofNat 0

/-- The left child pointer; none models the null pointer of a leaf. -/
def HuffmanNode.childL : HuffmanNode → Option HuffmanNode
  | .leaf _ _ => none
  | .node _ l _ => some l

def HuffmanNode.childR : HuffmanNode → Option HuffmanNode
  | .leaf _ _ => none
  | .node _ _ r => some r

/-- HuffmanCompression::buildFrequencyTable. The source uses an unordered
map; the model keeps first-occurrence order. Claims about this codec are
evaluated only on inputs whose frequencies are pairwise distinct, where the
table order cannot influence the built tree. -/
def buildFrequencyTable (text : List Char) : List (Char × Nat) :=
  text.foldl
    (fun tbl c =>
      if tbl.any (fun e => e.1 = c) then
        tbl.map (fun e => if e.1 = c then (e.1, e.2 + 1) else e)
      else tbl ++ [(c, 1)])
    []

/-- Insertion into the min-priority queue, modelled as a frequency-sorted
list; pop takes the head. Ties are broken arbitrarily by the heap in the
source, so this model is only used where frequencies are distinct. -/
def pqInsert (n : HuffmanNode) : List HuffmanNode → List HuffmanNode
  | [] => [n]
  | m :: rest =>
    if n.frequency < m.frequency then n :: m :: rest else m :: pqInsert n rest

/-- Merge loop of HuffmanCompression::buildHuffmanTree; the fuel is the
initial queue length, which strictly bounds the number of merges. -/
def buildTreeLoop : Nat → List HuffmanNode → Option HuffmanNode
  | _, [] => none
  | _, [n] => some n
  | 0, l :: _ => some l
  | fuel+1, l :: r :: rest =>
    buildTreeLoop fuel (pqInsert (.node (l.frequency + r.frequency) l r) rest)

/-- HuffmanCompression::generateCodesHelper: bit codes as lists of the
characters 0 and 1, appending 0 on a left edge and 1 on a right edge. -/
def generateCodesHelper : HuffmanNode → List Char → List (Char × List Char)
  | .leaf c _, code => [(c, code)]
  | .node _ l r, code =>
    generateCodesHelper l (code ++ ['0']) ++ generateCodesHelper r (code ++ ['1'])

/-- HuffmanCompression::generateHuffmanCodes with the lone-leaf special
case mapping the single character to the one-bit code 0. -/
def generateHuffmanCodes : Option HuffmanNode → List (Char × List Char)
  | none => []
  | some root => if root.isLeaf then [(root.character, ['0'])] else generateCodesHelper root []

/-- HuffmanCompression::writeBits: pack a 0/1 character string into bytes,
most significant bit first, the final partial byte padded with zero bits. -/
def writeBitsLoop : List Char → Nat → Nat → List Nat → List Nat
  | [], byte, cnt, acc => if 0 < cnt then acc ++ [byte] else acc
  | b :: rest, byte, cnt, acc =>
    let byte := if b = '1' then byte ||| (1 <<< (7 - cnt)) else byte
    if cnt + 1 = 8 then writeBitsLoop rest 0 0 (acc ++ [byte])
    else writeBitsLoop rest byte (cnt + 1) acc

def writeBits (bits : List Char) : List Nat := writeBitsLoop bits 0 0 []

/-- HuffmanCompression::encodeText: concatenate per-character codes
(characters without a code are skipped) and pack into bytes. -/
def encodeText (codes : List (Char × List Char)) (text : List Char) : List Nat :=
  writeBits (text.foldl
    (fun bits c =>
      match codes.find? (fun e => e.1 = c) with
      | some e => bits ++ e.2
      | none => bits)
    [])

/-- Compression-time state of a HuffmanCompression instance after
compress: the built tree and code table. -/
structure HuffmanState where
  root : Option HuffmanNode
  huffmanCodes : List (Char × List Char)

/-- HuffmanCompression::compress: serializeTree emits the single marker
byte 255, followed by the packed code bits. -/
def huffmanCompress (text : List Char) : List Nat × HuffmanState :=
  if text = [] then ([], ⟨none, []⟩)
  else
    let freq := buildFrequencyTable text
    let pq := freq.foldl (fun pq e => pqInsert (.leaf e.1 e.2) pq) []
    let root := buildTreeLoop pq.length pq
    let codes := generateHuffmanCodes root
    (255 :: encodeText codes text, ⟨root, codes⟩)

/-- The 8 bits of a byte, most significant first. -/
def byteBits (b : Nat) : List Bool :=
  [b >>> 7 &&& 1 = 1, b >>> 6 &&& 1 = 1, b >>> 5 &&& 1 = 1, b >>> 4 &&& 1 = 1,
   b >>> 3 &&& 1 = 1, b >>> 2 &&& 1 = 1, b >>> 1 &&& 1 = 1, b &&& 1 = 1]

/-- Bit-walking loop of HuffmanCompression::decodeText. The current
pointer is an Option; stepping from a leaf yields the null pointer, and a
further step from the null pointer is the null dereference of the source,
modelled as none for the whole result. -/
def decodeBits (root : HuffmanNode) : List Bool → Option HuffmanNode → Option (List Char)
  | [], _ => some []
  | b :: rest, cur =>
    match cur with
    | none => none
    | some n =>
      match (if b then n.childR else n.childL) with
      | some m =>
        if m.isLeaf then (decodeBits root rest (some root)).map (fun t => m.character :: t)
        else decodeBits root rest (some m)
      | none => decodeBits root rest none

/-- Index just past the first 255 byte, as scanned by decodeText. -/
def treeStartScan : List Nat → Nat
  | [] => 1
  | b :: rest => if b = 255 then 1 else treeStartScan rest + 1

/-- HuffmanCompression::decodeText, reading bits after the marker byte. -/
def decodeText (st : HuffmanState) (encodedData : List Nat) : Option (List Char) :=
  match st.root with
  | none => some []
  | some root =>
    decodeBits root ((encodedData.drop (treeStartScan encodedData)).flatMap byteBits)
      (some root)

/-- HuffmanCompression::decompress within the same instance that produced
the data (deserializeTree only advances an index that decodeText ignores). -/
def huffmanDecompress (st : HuffmanState) (compressedData : List Nat) : Option (List Char) :=
  if compressedData = [] then some [] else decodeText st compressedData

structure LZ77Token where
  offset : Nat
  length : Nat
  nextChar : Char
deriving DecidableEq

/-- Inner match-extension loop of LZ77Compression::findLongestMatch. -/
def lzMatchLen (text : List Char) (i cur maxLength : Nat) : Nat → Nat → Nat
  | 0, len => len
  | fuel+1, len =>
    if len < maxLength ∧ i + len < cur ∧ cur + len < text.length ∧
        charAt text (i + len) = charAt text (cur + len) then
      lzMatchLen text i cur maxLength fuel (len + 1)
    else len

/-- LZ77Compression::findLongestMatch: best (offset, length) over window
start positions, keeping the first strictly longest match. -/
def findLongestMatch (windowSize bufferSize : Nat) (text : List Char) (cur : Nat) :
    Nat × Nat :=
  let searchStart := cur - windowSize
  let maxLength := min bufferSize (text.length - cur)
  (List.range cur).foldl
    (fun best i =>
      if searchStart ≤ i then
        let len := lzMatchLen text i cur maxLength (maxLength + 1) 0
        if best.2 < len then (cur - i, len) else best
      else best)
    (0, 0)

/-- Main loop of LZ77Compression::encode. When a match is found the
emitted literal is text at position pos plus match length, which is the
null character when the match reaches the end of the text. -/
def lzEncodeLoop (windowSize bufferSize : Nat) (text : List Char) :
    Nat → Nat → List LZ77Token → List LZ77Token
  | 0, _, acc => acc
  | fuel+1, pos, acc =>
    if pos < text.length then
      let m := findLongestMatch windowSize bufferSize text pos
      if 0 < m.1 ∧ 0 < m.2 then
        lzEncodeLoop windowSize bufferSize text fuel (pos + m.2 + 1)
          (acc ++ [⟨m.1, m.2, charAt text (pos + m.2)⟩])
      else
        lzEncodeLoop windowSize bufferSize text fuel (pos + 1)
          (acc ++ [⟨0, 0, charAt text pos⟩])
    else acc

def lzEncode (windowSize bufferSize : Nat) (text : List Char) : List LZ77Token :=
  lzEncodeLoop windowSize bufferSize text (text.length + 1) 0 []

/-- Character-by-character back-reference copy of LZ77Compression::decode;
the output grows while it is being read, as in the source. -/
def lzCopyLoop (start : Nat) : Nat → List Char → List Char
  | 0, acc => acc
  | n+1, acc => lzCopyLoop (start + 1) n (acc ++ [charAt acc start])

/-- LZ77Compression::decode. -/
def lzDecode (tokens : List LZ77Token) : List Char :=
  tokens.foldl
    (fun acc t =>
      if t.offset = 0 then acc ++ [t.nextChar]
      else lzCopyLoop (acc.length - t.offset) t.length acc ++ [t.nextChar])
    []

/-- LZ77Compression::serializeTokens: 4 bytes per token, big-endian 16-bit
offset, length byte, literal byte. -/
def serializeTokens (tokens : List LZ77Token) : List Nat :=
  tokens.foldl
    (fun acc t =>
      acc ++ [t.offset >>> 8 &&& 255, t.offset &&& 255, t.length &&& 255,
        t.nextChar.toNat % 256])
    []

/-- LZ77Compression::deserializeTokens: read whole 4-byte groups;
trailing bytes that do not fill a group are ignored. -/
def deserializeTokens : List Nat → List LZ77Token
  | b0 :: b1 :: b2 :: b3 :: rest =>
    ⟨b0 <<< 8 ||| b1, b2, Char.ofNat (b3 % 256)⟩ :: deserializeTokens rest
  | _ => []

/-- LZ77Compression::compress with the default window and buffer sizes. -/
def lzCompress (text : List Char) : List Nat :=
  if text = [] then [] else serializeTokens (lzEncode 32768 258 text)

/-- LZ77Compression::decompress. -/
def lzDecompress (data : List Nat) : List Char :=
  if data = [] then [] else lzDecode (deserializeTokens data)

/-! ## Balanced text-storage tree (avl_tree.cpp).

Nodes are shared and mutated in place through shared pointers in the
source, and whole root pointers are pushed onto the undo and redo stacks,
so the tree is embedded with an explicit store: a list of nodes addressed
by index, where allocation appends and mutation writes back at an index.
Child pointers and the root are Option indices (none models the null
pointer). Recursive walks over the pointer structure carry fuel one larger
than the store size, which strictly bounds the depth of every tree-shaped
structure the program can build. -/

structure AVLNode where
  data : List Char
  height : Int
  size : Int
  left : Option Nat
  right : Option Nat
deriving DecidableEq

/-- Dereference a node index; a dangling index yields a default node
(never reached on stores built by the embedded operations). -/
def getNode (st : List AVLNode) (i : Nat) : AVLNode := st.getD i ⟨[], 0, 0, none, none⟩

def setNode (st : List AVLNode) (i : Nat) (n : AVLNode) : List AVLNode := st.set i n

/-- AVLTree::getHeight. -/
def heightOf (st : List AVLNode) : Option Nat → Int
  | none => 0
  | some i => (getNode st i).height

/-- AVLTree::getSize on a node pointer. -/
def sizeOf' (st : List AVLNode) : Option Nat → Int
  | none => 0
  | some i => (getNode st i).size

/-- AVLTree::getBalance. -/
def balanceOf (st : List AVLNode) : Option Nat → Int
  | none => 0
  | some i => heightOf st (getNode st i).left - heightOf st (getNode st i).right

/-- AVLTree::updateHeight. -/
def updateHeight (st : List AVLNode) (i : Nat) : List AVLNode :=
  let n := getNode st i
  setNode st i { n with height := 1 + max (heightOf st n.left) (heightOf st n.right) }

/-- AVLTree::updateSize. -/
def updateSize (st : List AVLNode) (i : Nat) : List AVLNode :=
  let n := getNode st i
  setNode st i { n with size := (n.data.length : Int) + sizeOf' st n.left + sizeOf' st n.right }

/-- AVLTree::rotateRight. The source dereferences the left child; a null
left child (never reached) leaves the store unchanged. -/
def rotateRight (st : List AVLNode) (y : Nat) : List AVLNode × Nat :=
  match (getNode st y).left with
  | none => (st, y)
  | some x =>
    let t2 := (getNode st x).right
    let st := setNode st x { getNode st x with right := some y }
    let st := setNode st y { getNode st y with left := t2 }
    let st := updateHeight st y
    let st := updateSize st y
    let st := updateHeight st x
    let st := updateSize st x
    (st, x)

/-- AVLTree::rotateLeft. -/
def rotateLeft (st : List AVLNode) (x : Nat) : List AVLNode × Nat :=
  match (getNode st x).right with
  | none => (st, x)
  | some y =>
    let t2 := (getNode st y).left
    let st := setNode st y { getNode st y with left := some x }
    let st := setNode st x { getNode st x with right := t2 }
    let st := updateHeight st x
    let st := updateSize st x
    let st := updateHeight st y
    let st := updateSize st y
    (st, y)

/-- Rotation applied to a child pointer, used in the double-rotation
cases; the source would dereference a null pointer there. -/
def rotateLeftOpt (st : List AVLNode) : Option Nat → List AVLNode × Option Nat
  | none => (st, none)
  | some i => let r := rotateLeft st i; (r.1, some r.2)

def rotateRightOpt (st : List AVLNode) : Option Nat → List AVLNode × Option Nat
  | none => (st, none)
  | some i => let r := rotateRight st i; (r.1, some r.2)

/-- AVLTree::balance. -/
def balanceFix (st : List AVLNode) : Option Nat → List AVLNode × Option Nat
  | none => (st, none)
  | some i =>
    let st := updateHeight st i
    let st := updateSize st i
    let b := balanceOf st (some i)
    if 1 < b ∧ 0 ≤ balanceOf st (getNode st i).left then
      let r := rotateRight st i
      (r.1, some r.2)
    else if b < -1 ∧ balanceOf st (getNode st i).right ≤ 0 then
      let r := rotateLeft st i
      (r.1, some r.2)
    else if 1 < b ∧ balanceOf st (getNode st i).left < 0 then
      let r := rotateLeftOpt st (getNode st i).left
      let st := setNode r.1 i { getNode r.1 i with left := r.2 }
      let r2 := rotateRight st i
      (r2.1, some r2.2)
    else if b < -1 ∧ 0 < balanceOf st (getNode st i).right then
      let r := rotateRightOpt st (getNode st i).right
      let st := setNode r.1 i { getNode r.1 i with right := r.2 }
      let r2 := rotateLeft st i
      (r2.1, some r2.2)
    else (st, some i)

/-- AVLTree::insertHelper. -/
def insertHelper (text : List Char) :
    Nat → List AVLNode → Option Nat → Int → List AVLNode × Option Nat
  | 0, st, o, _ => (st, o)
  | _+1, st, none, _ => (st ++ [⟨text, 1, (text.length : Int), none, none⟩], some st.length)
  | fuel+1, st, some i, position =>
    let n := getNode st i
    let leftSize := sizeOf' st n.left
    if position ≤ leftSize then
      let r := insertHelper text fuel st n.left position
      let st := setNode r.1 i { getNode r.1 i with left := r.2 }
      balanceFix st (some i)
    else if position ≤ leftSize + (n.data.length : Int) then
      let insertPos := (position - leftSize).toNat
      let st := setNode st i
        { n with data := n.data.take insertPos ++ text ++ n.data.drop insertPos }
      let st := updateSize st i
      balanceFix st (some i)
    else
      let r := insertHelper text fuel st n.right (position - leftSize - (n.data.length : Int))
      let st := setNode r.1 i { getNode r.1 i with right := r.2 }
      balanceFix st (some i)

/-- AVLTree::eraseHelper. -/
def eraseHelper (length : Int) :
    Nat → List AVLNode → Option Nat → Int → List AVLNode × Option Nat
  | 0, st, o, _ => (st, o)
  | _+1, st, none, _ => (st, none)
  | fuel+1, st, some i, position =>
    let n := getNode st i
    let leftSize := sizeOf' st n.left
    let dataLen : Int := n.data.length
    if position < leftSize then
      let r := eraseHelper length fuel st n.left position
      let st := setNode r.1 i { getNode r.1 i with left := r.2 }
      balanceFix st (some i)
    else if position < leftSize + dataLen then
      let eraseStart := position - leftSize
      let eraseEnd := min (eraseStart + length) dataLen
      let st := setNode st i
        { n with data := n.data.take eraseStart.toNat ++ n.data.drop eraseEnd.toNat }
      let st := updateSize st i
      let remaining := length - (eraseEnd - eraseStart)
      let r := if 0 < remaining then
          let r := eraseHelper remaining fuel st (getNode st i).right 0
          (setNode r.1 i { getNode r.1 i with right := r.2 }, ())
        else (st, ())
      balanceFix r.1 (some i)
    else
      let r := eraseHelper length fuel st n.right (position - leftSize - dataLen)
      let st := setNode r.1 i { getNode r.1 i with right := r.2 }
      balanceFix st (some i)

/-- AVLTree::collectText, threading the cumulative position and the
accumulated result like the reference parameters of the source. -/
def collectText :
    Nat → List AVLNode → Option Nat → Int → Int → Int → List Char → Int × List Char
  | 0, _, _, _, _, cur, acc => (cur, acc)
  | _+1, _, none, _, _, cur, acc => (cur, acc)
  | fuel+1, st, some i, start, length, cur, acc =>
    let n := getNode st i
    let r := collectText fuel st n.left start length cur acc
    let cur := r.1
    let acc := r.2
    let dlen : Int := n.data.length
    let acc := acc ++
      (if cur < start + length ∧ start < cur + dlen then
        let nodeStart := max 0 (start - cur)
        let nodeEnd := min dlen (start + length - cur)
        if nodeStart < nodeEnd then
          (n.data.drop nodeStart.toNat).take (nodeEnd - nodeStart).toNat
        else []
      else [])
    collectText fuel st n.right start length (cur + dlen) acc

/-- Smallest match position of the pattern at or after pos, the contract
of std::string::find. -/
def strFindFrom (data pattern : List Char) (pos : Nat) : Option Nat :=
  ((List.range (data.length + 1)).filter
    (fun idx => pos ≤ idx ∧ idx + pattern.length ≤ data.length ∧
      (data.drop idx).take pattern.length = pattern)).head?

/-- In-fragment occurrence loop of AVLTree::searchInNode: repeated find,
advancing by the pattern length. For the empty pattern the source loops
forever; the fuel then runs out, and every claim about searching is
stated for non-empty patterns only. -/
def fragOccLoop (data pattern : List Char) : Nat → Nat → List Nat → List Nat
  | 0, _, acc => acc
  | fuel+1, pos, acc =>
    match strFindFrom data pattern pos with
    | none => acc
    | some p => fragOccLoop data pattern fuel (p + pattern.length) (acc ++ [p])

def fragOcc (data pattern : List Char) : List Nat :=
  fragOccLoop data pattern (data.length + 2) 0 []

/-- AVLTree::searchInNode. -/
def searchInNode :
    Nat → List AVLNode → Option Nat → List Char → Int → List Int → Int × List Int
  | 0, _, _, _, cur, acc => (cur, acc)
  | _+1, _, none, _, cur, acc => (cur, acc)
  | fuel+1, st, some i, pattern, cur, acc =>
    let n := getNode st i
    let r := searchInNode fuel st n.left pattern cur acc
    let cur := r.1
    let acc := r.2 ++ (fragOcc n.data pattern).map (fun p => cur + (p : Int))
    searchInNode fuel st n.right pattern (cur + (n.data.length : Int)) acc

/-- AVLTree::validate, checking the balance bound and cached sizes. -/
def validateHelper : Nat → List AVLNode → Option Nat → Bool
  | 0, _, _ => true
  | _+1, _, none => true
  | fuel+1, st, some i =>
    let n := getNode st i
    let b := balanceOf st (some i)
    if b < -1 ∨ 1 < b then false
    else if n.size ≠ (n.data.length : Int) + sizeOf' st n.left + sizeOf' st n.right then false
    else validateHelper fuel st n.left && validateHelper fuel st n.right

/-- The whole AVLTree object: node store, root pointer and the two
history stacks of root pointers (head is the stack top). -/
structure AVLTree where
  store : List AVLNode
  root : Option Nat
  undoStack : List (Option Nat)
  redoStack : List (Option Nat)
deriving DecidableEq

def AVLTree.new : AVLTree := ⟨[], none, [], []⟩

/-- Walk fuel: one more than the store size bounds every simple pointer
path. -/
def AVLTree.fuel (t : AVLTree) : Nat := t.store.length + 1

/-- AVLTree::getSize. -/
def AVLTree.getSize (t : AVLTree) : Int := sizeOf' t.store t.root

/-- AVLTree::getText. -/
def AVLTree.getText (t : AVLTree) (start length : Int) : List Char :=
  (collectText t.fuel t.store t.root start length 0 []).2

/-- AVLTree::getChar. -/
def AVLTree.getChar (t : AVLTree) (position : Int) : Char :=
  if position < 0 ∨ t.getSize ≤ position then Char.ofNat 0
  else
    match t.getText position 1 with
    | [] => Char.ofNat 0
    | c :: _ => c

/-- AVLTree::saveState: push the root if non-null; once the stack exceeds
50 entries the source pops entries into a temporary stack until 25 remain
and keeps that temporary stack, i.e. it keeps the newest entries reversed;
the redo stack is always cleared. -/
def AVLTree.saveState (t : AVLTree) : AVLTree :=
  let undo :=
    match t.root with
    | some r =>
      let u := some r :: t.undoStack
      if 50 < u.length then (u.take (u.length - 25)).reverse else u
    | none => t.undoStack
  { t with undoStack := undo, redoStack := [] }

/-- AVLTree::insert. -/
def AVLTree.insert (t : AVLTree) (position : Int) (text : List Char) : AVLTree :=
  if text = [] then t
  else
    let t := t.saveState
    let r := insertHelper text t.fuel t.store t.root position
    { t with store := r.1, root := r.2 }

/-- AVLTree::erase. -/
def AVLTree.erase (t : AVLTree) (position length : Int) : AVLTree :=
  if length ≤ 0 then t
  else
    let t := t.saveState
    let r := eraseHelper length t.fuel t.store t.root position
    { t with store := r.1, root := r.2 }

/-- AVLTree::undo, returning the success flag and the updated tree. -/
def AVLTree.undo (t : AVLTree) : Bool × AVLTree :=
  match t.undoStack with
  | [] => (false, t)
  | r :: rest =>
    (true, { t with root := r, undoStack := rest, redoStack := t.root :: t.redoStack })

/-- AVLTree::redo. -/
def AVLTree.redo (t : AVLTree) : Bool × AVLTree :=
  match t.redoStack with
  | [] => (false, t)
  | r :: rest =>
    (true, { t with root := r, redoStack := rest, undoStack := t.root :: t.undoStack })

/-- AVLTree::clearHistory. -/
def AVLTree.clearHistory (t : AVLTree) : AVLTree :=
  { t with undoStack := [], redoStack := [] }

/-- AVLTree::findAll. -/
def AVLTree.findAll (t : AVLTree) (pattern : List Char) : List Int :=
  (searchInNode t.fuel t.store t.root pattern 0 []).2

/-- AVLTree::validate. -/
def AVLTree.validate (t : AVLTree) : Bool := validateHelper t.fuel t.store t.root

/-- AVLTree::moveCursor. -/
def AVLTree.moveCursor (t : AVLTree) (currentPos offset : Int) : Int :=
  max 0 (min (currentPos + offset) t.getSize)

/-- Last index of a newline, the contract of std::string::rfind. -/
def strRFindNewline (text : List Char) : Option Nat :=
  ((List.range text.length).filter (fun idx => charAt text idx = Char.ofNat 10)).getLast?

/-- First index of a newline, the contract of std::string::find. -/
def strFindNewline (text : List Char) : Option Nat :=
  ((List.range text.length).filter (fun idx => charAt text idx = Char.ofNat 10)).head?

/-- AVLTree::getLineStart. -/
def AVLTree.getLineStart (t : AVLTree) (position : Int) : Int :=
  match strRFindNewline (t.getText 0 position) with
  | none => 0
  | some idx => (idx : Int) + 1

/-- AVLTree::getLineEnd. -/
def AVLTree.getLineEnd (t : AVLTree) (position : Int) : Int :=
  match strFindNewline (t.getText position (t.getSize - position)) with
  | none => t.getSize
  | some idx => position + (idx : Int)

/-- AVLTree::getLineNumber. -/
def AVLTree.getLineNumber (t : AVLTree) (position : Int) : Int :=
  ((t.getText 0 position).count (Char.ofNat 10) : Int) + 1

/-- AVLTree::getColumnNumber. -/
def AVLTree.getColumnNumber (t : AVLTree) (position : Int) : Int :=
  position - t.getLineStart position

/-- Reference flat-string semantics of an insert, written from the wording
of the specification: splice the new text in at the offset. -/
def refInsert (s : List Char) (pos : Nat) (text : List Char) : List Char :=
  s.take pos ++ text ++ s.drop pos

/-- Reference flat-string semantics of an erase: delete the range. -/
def refErase (s : List Char) (pos len : Nat) : List Char :=
  s.take pos ++ s.drop (pos + len)

/-! ## Document and editor core (terminal_ui.cpp, class TextEditor).

Timestamps and the auto-save worker thread are outside the embeddable
surface and carry no claim; the remaining session state is translated
field by field. Each operation is a state transformer; the three
line-navigation operations are mutually recursive in the source with no
state change between recursive calls, so they diverge on multi-line
documents — they are embedded with fuel and return none on divergence,
and every other operation always returns some state. -/

structure Document where
  filename : List Char
  title : List Char
  modified : Bool
  content : AVLTree
deriving DecidableEq

def Document.new : Document := ⟨"Untitled".toList, "Untitled".toList, false, AVLTree.new⟩

structure TextEditor where
  documents : List Document
  currentDocumentIndex : Int
  cursorPosition : Int
  selectionStart : Int
  selectionEnd : Int
  isSelecting : Bool
  clipboard : List Char
deriving DecidableEq

/-- TextEditor::isValidDocumentIndex. -/
def TextEditor.isValidDocumentIndex (e : TextEditor) (index : Int) : Prop :=
  0 ≤ index ∧ index < (e.documents.length : Int)

instance (e : TextEditor) (i : Int) : Decidable (e.isValidDocumentIndex i) := by
  unfold TextEditor.isValidDocumentIndex; infer_instance

/-- TextEditor::getCurrentDocument. -/
def TextEditor.getCurrentDocument (e : TextEditor) : Option Document :=
  if e.isValidDocumentIndex e.currentDocumentIndex then
    e.documents.get? e.currentDocumentIndex.toNat
  else none

/-- Write back the current document (mutation through the doc pointer). -/
def TextEditor.setCurrentDocument (e : TextEditor) (d : Document) : TextEditor :=
  { e with documents := e.documents.set e.currentDocumentIndex.toNat d }

/-- TextEditor::hasSelection. -/
def TextEditor.hasSelection (e : TextEditor) : Prop :=
  e.selectionStart ≠ e.selectionEnd

instance (e : TextEditor) : Decidable e.hasSelection := by
  unfold TextEditor.hasSelection; infer_instance

/-- TextEditor::clearSelection. -/
def TextEditor.clearSelection (e : TextEditor) : TextEditor :=
  { e with
    selectionStart := e.cursorPosition
    selectionEnd := e.cursorPosition
    isSelecting := false }

/-- TextEditor::markDocumentModified. -/
def TextEditor.markDocumentModified (e : TextEditor) : TextEditor :=
  match e.getCurrentDocument with
  | none => e
  | some d => e.setCurrentDocument { d with modified := true }

/-- TextEditor::ensureValidCursorPosition. -/
def TextEditor.ensureValidCursorPosition (e : TextEditor) : TextEditor :=
  match e.getCurrentDocument with
  | none => e
  | some d =>
    { e with cursorPosition := max 0 (min e.cursorPosition d.content.getSize) }

/-- TextEditor::newDocument. -/
def TextEditor.newDocument (e : TextEditor) : TextEditor :=
  let e := { e with documents := e.documents ++ [Document.new] }
  let e := { e with
    currentDocumentIndex := (e.documents.length : Int) - 1
    cursorPosition := 0 }
  e.clearSelection

/-- The TextEditor constructor: zero-initialised session state followed by
newDocument. -/
def TextEditor.init : TextEditor :=
  TextEditor.newDocument ⟨[], 0, 0, 0, 0, false, []⟩

/-- Size of the current document, as read by the source through
doc->content->getSize(). -/
def TextEditor.docSize (e : TextEditor) : Int :=
  match e.getCurrentDocument with
  | none => 0
  | some d => d.content.getSize

/-- TextEditor::deleteSelection. -/
def TextEditor.deleteSelection (e : TextEditor) : TextEditor :=
  if ¬ e.hasSelection then e
  else
    match e.getCurrentDocument with
    | none => e
    | some d =>
      let length := e.selectionEnd - e.selectionStart
      let e := e.setCurrentDocument
        { d with content := d.content.erase e.selectionStart length }
      let e := { e with cursorPosition := e.selectionStart }
      let e := e.clearSelection
      e.markDocumentModified

/-- TextEditor::insertText. -/
def TextEditor.insertText (e : TextEditor) (text : List Char) : TextEditor :=
  match e.getCurrentDocument with
  | none => e
  | some _ =>
    let e := if e.hasSelection then e.deleteSelection else e
    match e.getCurrentDocument with
    | none => e
    | some d =>
      let e := e.setCurrentDocument
        { d with content := d.content.insert e.cursorPosition text }
      let e := { e with cursorPosition := e.cursorPosition + (text.length : Int) }
      e.markDocumentModified

/-- TextEditor::deleteText. -/
def TextEditor.deleteText (e : TextEditor) (length : Int) : TextEditor :=
  match e.getCurrentDocument with
  | none => e
  | some d =>
    if e.hasSelection then e.deleteSelection
    else
      let actualLength := min length (d.content.getSize - e.cursorPosition)
      if 0 < actualLength then
        let e := e.setCurrentDocument
          { d with content := d.content.erase e.cursorPosition actualLength }
        e.markDocumentModified
      else e

/-- TextEditor::backspace. -/
def TextEditor.backspace (e : TextEditor) (length : Int) : TextEditor :=
  match e.getCurrentDocument with
  | none => e
  | some d =>
    if e.hasSelection then e.deleteSelection
    else
      let actualLength := min length e.cursorPosition
      if 0 < actualLength then
        let e := { e with cursorPosition := e.cursorPosition - actualLength }
        let e := e.setCurrentDocument
          { d with content := d.content.erase e.cursorPosition actualLength }
        e.markDocumentModified
      else e

/-- TextEditor::insertNewline. -/
def TextEditor.insertNewline (e : TextEditor) : TextEditor :=
  e.insertText [Char.ofNat 10]

/-- TextEditor::insertTab: four literal spaces. -/
def TextEditor.insertTab (e : TextEditor) : TextEditor :=
  e.insertText "    ".toList

/-- TextEditor::moveCursor. -/
def TextEditor.moveCursor (e : TextEditor) (offset : Int) : TextEditor :=
  match e.getCurrentDocument with
  | none => e
  | some d =>
    let e := { e with cursorPosition := d.content.moveCursor e.cursorPosition offset }
    e.ensureValidCursorPosition

/-- TextEditor::moveCursorTo. -/
def TextEditor.moveCursorTo (e : TextEditor) (position : Int) : TextEditor :=
  match e.getCurrentDocument with
  | none => e
  | some d =>
    let e := { e with cursorPosition := max 0 (min position d.content.getSize) }
    e.ensureValidCursorPosition

/-- TextEditor::moveCursorToLineStart. -/
def TextEditor.moveCursorToLineStart (e : TextEditor) : TextEditor :=
  match e.getCurrentDocument with
  | none => e
  | some d =>
    { e with cursorPosition := d.content.getLineStart e.cursorPosition }

/-- TextEditor::moveCursorToLineEnd. -/
def TextEditor.moveCursorToLineEnd (e : TextEditor) : TextEditor :=
  match e.getCurrentDocument with
  | none => e
  | some d =>
    { e with cursorPosition := d.content.getLineEnd e.cursorPosition }

/-- TextEditor::moveCursorToDocumentStart. -/
def TextEditor.moveCursorToDocumentStart (e : TextEditor) : TextEditor :=
  { e with cursorPosition := 0 }

/-- TextEditor::moveCursorToDocumentEnd. -/
def TextEditor.moveCursorToDocumentEnd (e : TextEditor) : TextEditor :=
  match e.getCurrentDocument with
  | none => e
  | some d => { e with cursorPosition := d.content.getSize }

/-- TextEditor::getCurrentLine. -/
def TextEditor.getCurrentLine (e : TextEditor) : Int :=
  match e.getCurrentDocument with
  | none => 1
  | some d => d.content.getLineNumber e.cursorPosition

/-- TextEditor::getCurrentColumn. -/
def TextEditor.getCurrentColumn (e : TextEditor) : Int :=
  match e.getCurrentDocument with
  | none => 1
  | some d => d.content.getColumnNumber e.cursorPosition + 1

/-- TextEditor::getText (whole document). -/
def TextEditor.getFullText (e : TextEditor) : List Char :=
  match e.getCurrentDocument with
  | none => []
  | some d => d.content.getText 0 d.content.getSize

/-- TextEditor::getText (range). -/
def TextEditor.getText (e : TextEditor) (start length : Int) : List Char :=
  match e.getCurrentDocument with
  | none => []
  | some d => d.content.getText start length

/-- TextEditor::getLineCount. -/
def TextEditor.getLineCount (e : TextEditor) : Int :=
  match e.getCurrentDocument with
  | none => 0
  | some _ => (e.getFullText.count (Char.ofNat 10) : Int) + 1

mutual

/-- TextEditor::moveCursorToLine, moveCursorUp and moveCursorDown are
mutually recursive in the source: moveCursorToLine steps one line at a
time through moveCursorUp and moveCursorDown, and those two call
moveCursorToLine back with a one-line difference before any state change,
so whenever a step is actually needed the recursion never makes progress.
The embedding carries fuel; none models the divergence. -/
def mcToLine : Nat → TextEditor → Int → Option TextEditor
  | 0, _, _ => none
  | fuel+1, e, line =>
    match e.getCurrentDocument with
    | none => some e
    | some _ =>
      let d := line - e.getCurrentLine
      if 0 < d then mcDownTimes fuel e d.toNat
      else if d < 0 then mcUpTimes fuel e (-d).toNat
      else some e

/-- The for loop of moveCursorToLine in the downward direction. -/
def mcDownTimes : Nat → TextEditor → Nat → Option TextEditor
  | 0, _, _ => none
  | _+1, e, 0 => some e
  | fuel+1, e, n+1 =>
    match mcDown fuel e with
    | none => none
    | some e2 => mcDownTimes fuel e2 n

/-- The for loop of moveCursorToLine in the upward direction. -/
def mcUpTimes : Nat → TextEditor → Nat → Option TextEditor
  | 0, _, _ => none
  | _+1, e, 0 => some e
  | fuel+1, e, n+1 =>
    match mcUp fuel e with
    | none => none
    | some e2 => mcUpTimes fuel e2 n

/-- TextEditor::moveCursorDown. -/
def mcDown : Nat → TextEditor → Option TextEditor
  | 0, _ => none
  | fuel+1, e =>
    match e.getCurrentDocument with
    | none => some e
    | some _ =>
      let currentLine := e.getCurrentLine
      let currentColumn := e.getCurrentColumn
      if currentLine < e.getLineCount then
        match mcToLine fuel e (currentLine + 1) with
        | none => none
        | some e2 =>
          match e2.getCurrentDocument with
          | none => some e2
          | some d =>
            let ls := d.content.getLineStart e2.cursorPosition
            let le := d.content.getLineEnd e2.cursorPosition
            some (e2.moveCursorTo (ls + min currentColumn (le - ls)))
      else some e

/-- TextEditor::moveCursorUp. -/
def mcUp : Nat → TextEditor → Option TextEditor
  | 0, _ => none
  | fuel+1, e =>
    match e.getCurrentDocument with
    | none => some e
    | some _ =>
      let currentLine := e.getCurrentLine
      let currentColumn := e.getCurrentColumn
      if 1 < currentLine then
        match mcToLine fuel e (currentLine - 1) with
        | none => none
        | some e2 =>
          match e2.getCurrentDocument with
          | none => some e2
          | some d =>
            let ls := d.content.getLineStart e2.cursorPosition
            let le := d.content.getLineEnd e2.cursorPosition
            some (e2.moveCursorTo (ls + min currentColumn (le - ls)))
      else some e

end

/-- TextEditor::moveCursorLeft. -/
def TextEditor.moveCursorLeft (e : TextEditor) : TextEditor :=
  if 0 < e.cursorPosition then e.moveCursor (-1) else e

/-- TextEditor::moveCursorRight. -/
def TextEditor.moveCursorRight (e : TextEditor) : TextEditor :=
  match e.getCurrentDocument with
  | none => e
  | some d => if e.cursorPosition < d.content.getSize then e.moveCursor 1 else e

/-- TextEditor::startSelection. -/
def TextEditor.startSelection (e : TextEditor) : TextEditor :=
  { e with
    isSelecting := true
    selectionStart := e.cursorPosition
    selectionEnd := e.cursorPosition }

/-- TextEditor::normalizeSelection. -/
def TextEditor.normalizeSelection (e : TextEditor) : TextEditor :=
  if e.selectionEnd < e.selectionStart then
    { e with selectionStart := e.selectionEnd, selectionEnd := e.selectionStart }
  else e

/-- TextEditor::endSelection. -/
def TextEditor.endSelection (e : TextEditor) : TextEditor :=
  if e.isSelecting then
    ({ e with selectionEnd := e.cursorPosition, isSelecting := false }).normalizeSelection
  else e

/-- TextEditor::selectLine. -/
def TextEditor.selectLine (e : TextEditor) : TextEditor :=
  match e.getCurrentDocument with
  | none => e
  | some d =>
    { e with
      selectionStart := d.content.getLineStart e.cursorPosition
      selectionEnd := d.content.getLineEnd e.cursorPosition
      isSelecting := false }

def isWordChar (c : Char) : Bool := cIsAlnum c || c = '_'

/-- Backward word-boundary loop of TextEditor::selectWord. -/
def selWordStart (t : AVLTree) : Nat → Int → Int
  | 0, start => start
  | fuel+1, start =>
    if 0 < start ∧ isWordChar (t.getChar (start - 1)) then
      selWordStart t fuel (start - 1)
    else start

/-- Forward word-boundary loop of TextEditor::selectWord. -/
def selWordEnd (t : AVLTree) : Nat → Int → Int
  | 0, stop => stop
  | fuel+1, stop =>
    if stop < t.getSize ∧ isWordChar (t.getChar stop) then
      selWordEnd t fuel (stop + 1)
    else stop

/-- TextEditor::selectWord. -/
def TextEditor.selectWord (e : TextEditor) : TextEditor :=
  match e.getCurrentDocument with
  | none => e
  | some d =>
    let start := selWordStart d.content (e.cursorPosition.toNat + 1) e.cursorPosition
    let stop := selWordEnd d.content
      ((d.content.getSize - e.cursorPosition).toNat + 1) e.cursorPosition
    { e with
      selectionStart := start
      selectionEnd := stop
      isSelecting := false }

/-- TextEditor::getSelectedText. -/
def TextEditor.getSelectedText (e : TextEditor) : List Char :=
  if ¬ e.hasSelection then []
  else e.getText e.selectionStart (e.selectionEnd - e.selectionStart)

/-- TextEditor::copy. -/
def TextEditor.copy (e : TextEditor) : TextEditor :=
  if e.hasSelection then { e with clipboard := e.getSelectedText } else e

/-- TextEditor::cut. -/
def TextEditor.cut (e : TextEditor) : TextEditor :=
  e.copy.deleteSelection

/-- TextEditor::paste. -/
def TextEditor.paste (e : TextEditor) : TextEditor :=
  if e.clipboard ≠ [] then e.insertText e.clipboard else e

/-- TextEditor::undo. -/
def TextEditor.undoOp (e : TextEditor) : TextEditor :=
  match e.getCurrentDocument with
  | none => e
  | some d =>
    let r := d.content.undo
    let e := e.setCurrentDocument { d with content := r.2 }
    if r.1 then e.markDocumentModified.ensureValidCursorPosition else e

/-- TextEditor::redo. -/
def TextEditor.redoOp (e : TextEditor) : TextEditor :=
  match e.getCurrentDocument with
  | none => e
  | some d =>
    let r := d.content.redo
    let e := e.setCurrentDocument { d with content := r.2 }
    if r.1 then e.markDocumentModified.ensureValidCursorPosition else e

/-- TextEditor::switchToDocument. -/
def TextEditor.switchToDocument (e : TextEditor) (index : Int) : TextEditor :=
  if e.isValidDocumentIndex index then
    ({ e with currentDocumentIndex := index, cursorPosition := 0 }).clearSelection
  else e

/-- TextEditor::closeDocument. -/
def TextEditor.closeDocument (e : TextEditor) (index : Int) : TextEditor :=
  if ¬ e.isValidDocumentIndex index then e
  else
    let e := { e with documents := e.documents.eraseIdx index.toNat }
    let e :=
      if (e.documents.length : Int) ≤ e.currentDocumentIndex then
        { e with currentDocumentIndex := max 0 ((e.documents.length : Int) - 1) }
      else e
    let e := if e.documents = [] then e.newDocument else e
    ({ e with cursorPosition := 0 }).clearSelection

/-- TextEditor::findText: a case-sensitive literal tree search, followed,
in case-insensitive mode, by a filter that lower-cases each matched range
and compares it with the lower-cased pattern. -/
def TextEditor.findText (e : TextEditor) (pattern : List Char) (caseSensitive : Bool) :
    List Int :=
  match e.getCurrentDocument with
  | none => []
  | some d =>
    let searchPattern := if ¬ caseSensitive then lowerStr pattern else pattern
    let results := d.content.findAll pattern
    if ¬ caseSensitive then
      results.filter
        (fun pos => lowerStr (d.content.getText pos (pattern.length : Int)) = searchPattern)
    else results

/-- The public operations named by the session-state claim: editing,
navigation, selection, clipboard, undo/redo and document switching. -/
inductive EditorOp where
  | insertText (text : List Char)
  | deleteText (length : Int)
  | backspace (length : Int)
  | insertNewline
  | insertTab
  | moveCursor (offset : Int)
  | moveCursorTo (position : Int)
  | moveCursorToLine (line : Int)
  | moveCursorToLineStart
  | moveCursorToLineEnd
  | moveCursorToDocumentStart
  | moveCursorToDocumentEnd
  | moveCursorUp
  | moveCursorDown
  | moveCursorLeft
  | moveCursorRight
  | startSelection
  | endSelection
  | clearSelection
  | selectLine
  | selectWord
  | copy
  | cut
  | paste
  | undo
  | redo
  | deleteSelection
  | newDocument
  | switchToDocument (index : Int)
  | closeDocument (index : Int)

/-- One public operation. The line-navigation operations run with a fixed
fuel; they either ignore the request, complete without moving, or diverge
in the source, in which case every fuel yields none. -/
def applyOp : EditorOp → TextEditor → Option TextEditor
  | .insertText text, e => some (e.insertText text)
  | .deleteText length, e => some (e.deleteText length)
  | .backspace length, e => some (e.backspace length)
  | .insertNewline, e => some e.insertNewline
  | .insertTab, e => some e.insertTab
  | .moveCursor offset, e => some (e.moveCursor offset)
  | .moveCursorTo position, e => some (e.moveCursorTo position)
  | .moveCursorToLine line, e => mcToLine 1000 e line
  | .moveCursorToLineStart, e => some e.moveCursorToLineStart
  | .moveCursorToLineEnd, e => some e.moveCursorToLineEnd
  | .moveCursorToDocumentStart, e => some e.moveCursorToDocumentStart
  | .moveCursorToDocumentEnd, e => some e.moveCursorToDocumentEnd
  | .moveCursorUp, e => mcUp 1000 e
  | .moveCursorDown, e => mcDown 1000 e
  | .moveCursorLeft, e => some e.moveCursorLeft
  | .moveCursorRight, e => some e.moveCursorRight
  | .startSelection, e => some e.startSelection
  | .endSelection, e => some e.endSelection
  | .clearSelection, e => some e.clearSelection
  | .selectLine, e => some e.selectLine
  | .selectWord, e => some e.selectWord
  | .copy, e => some e.copy
  | .cut, e => some e.cut
  | .paste, e => some e.paste
  | .undo, e => some e.undoOp
  | .redo, e => some e.redoOp
  | .deleteSelection, e => some e.deleteSelection
  | .newDocument, e => some e.newDocument
  | .switchToDocument index, e => some (e.switchToDocument index)
  | .closeDocument index, e => some (e.closeDocument index)

/-- A sequence of public operations from a given session state. -/
def applyOps : List EditorOp → TextEditor → Option TextEditor
  | [], e => some e
  | op :: rest, e =>
    match applyOp op e with
    | none => none
    | some e2 => applyOps rest e2

/-- An operation sequence that drives the editor into a state whose
selection has start strictly greater than end. Phases: a three-fragment
tree is built by two prepends; nineteen mid-fragment splices pad the undo
history; one more prepend rotates the root so an undo can shrink the
document; a stale selection then parks the cursor beyond the end, making
every following insert allocate a fresh rightmost node, so the thirty
fixed-cursor inserts grow the tree rightwards through several root
rotations and overflow the fifty-entry undo history, whose trim keeps the
newest twenty-six snapshots in reversed order. An undo then restores the
oldest kept root, a splice grows its fragment, and twenty more undos walk
the reversed pile up to a newer root whose cached subtree size misses that
growth. A selection is recorded there, one redo returns to a smaller stale
root, deleteSelection parks the cursor beyond its cached size, and
selectLine computes a line start past the cached line end. -/
def opsC5norm : List EditorOp :=
  [.insertText "a\n".toList, .moveCursorTo 0, .insertText "b\n".toList] ++
  (List.replicate 19 [EditorOp.moveCursorTo 1, .insertText "p\n".toList]).flatten ++
  [.moveCursorTo 0, .insertText "c\n".toList, .moveCursorTo 3, .startSelection,
   .moveCursorTo 5, .endSelection, .undo, .deleteSelection] ++
  List.replicate 30 (EditorOp.insertText "w\n".toList) ++
  [.undo, .moveCursorTo 1, .insertText "z\n".toList] ++
  List.replicate 20 EditorOp.undo ++
  [.moveCursorTo 46, .startSelection, .moveCursorTo 50, .endSelection, .redo,
   .deleteSelection, .selectLine]

/-! ## Auxiliary notions used by the proofs. -/

/-- The in-order fragment sequence actually visited by a fuel-bounded walk
from a root; collectText and searchInNode traverse exactly this sequence. -/
def fragsOf : Nat → List AVLNode → Option Nat → List (List Char)
  | 0, _, _ => []
  | _+1, _, none => []
  | fuel+1, st, some i =>
    fragsOf fuel st (getNode st i).left ++ [(getNode st i).data] ++
      fragsOf fuel st (getNode st i).right

/-- Total character count of a fragment sequence. -/
def totalLen (frags : List (List Char)) : Int :=
  frags.foldr (fun d acc => (d.length : Int) + acc) 0

/-- Flat form of searchInNode over a fragment sequence. -/
def listOcc : List (List Char) → List Char → Int → List Int
  | [], _, _ => []
  | d :: rest, pattern, cur =>
    (fragOcc d pattern).map (fun p => cur + (p : Int)) ++
      listOcc rest pattern (cur + (d.length : Int))

/-- Flat form of collectText over a fragment sequence. -/
def listCollect : List (List Char) → Int → Int → Int → List Char
  | [], _, _, _ => []
  | d :: rest, start, length, cur =>
    let dlen : Int := d.length
    (if cur < start + length ∧ start < cur + dlen then
      let nodeStart := max 0 (start - cur)
      let nodeEnd := min dlen (start + length - cur)
      if nodeStart < nodeEnd then (d.drop nodeStart.toNat).take (nodeEnd - nodeStart).toNat
      else []
    else []) ++ listCollect rest start length (cur + dlen)

/-- All cached subtree sizes in a store are non-negative; every store the
program builds satisfies this. -/
def storeNonneg (st : List AVLNode) : Prop := ∀ n ∈ st, 0 ≤ n.size

/-- Session-state invariant established for the public editor operations:
non-negative cursor and selection offsets, and non-negative cached sizes
in every open document. -/
def einv (e : TextEditor) : Prop :=
  0 ≤ e.cursorPosition ∧ 0 ≤ e.selectionStart ∧ 0 ≤ e.selectionEnd ∧
    ∀ d ∈ e.documents, storeNonneg d.content.store

/-! ## Theorems -/

/-- C1: undo/redo symmetry after an insert fails on the code. The undo
stack stores the root pointer while insertHelper splices the new text into
the pointed-to node in place, so the snapshot aliases the mutated tree:
after insert 0 Hello, insert 5 space-World, undo reports success but the
tree still holds the post-insert content Hello World of size 11, not the
pre-insert content Hello of size 5 that the specification (and the
repository's own UndoRedo test) require. -/
theorem avl_undo_after_insert_keeps_new_text :
    (((AVLTree.new.insert 0 "Hello".toList).insert 5 " World".toList).undo.1 = true) ∧
    ((AVLTree.new.insert 0 "Hello".toList).insert 5 " World".toList).undo.2.getSize = 11 ∧
    ((AVLTree.new.insert 0 "Hello".toList).insert 5 " World".toList).undo.2.getText 0 11 =
      "Hello World".toList ∧
    "Hello World".toList ≠ "Hello".toList := by decide

/-- C2: the edit round-trip against a reference flat string fails on the
code. After insert 0 CD, insert 0 AB (two fragments) the erase of the
range from offset 1 of length 2 starts in the left fragment; eraseHelper
never continues an erase that starts in the left subtree into the node's
own fragment, so only one character is removed: the tree yields ACD while
the reference flat-string semantics yields AD. -/
theorem avl_erase_across_fragments_wrong :
    (((AVLTree.new.insert 0 "CD".toList).insert 0 "AB".toList).erase 1 2).getText 0
      (((AVLTree.new.insert 0 "CD".toList).insert 0 "AB".toList).erase 1 2).getSize =
      "ACD".toList ∧
    refErase (refInsert (refInsert [] 0 "CD".toList) 0 "AB".toList) 1 2 = "AD".toList ∧
    "ACD".toList ≠ "AD".toList := by decide

/-- C3: the three search algorithms do not agree on every input. The
good-suffix table is uniformly the pattern length and the shift takes the
maximum of it and the bad-character shift, so every mismatch advances by
at least a full pattern length: for text AAB and pattern AB the
prefix-function and rolling-hash searches both report position 1 while
the bad-character search reports nothing. On the example of the claim,
pattern AA against AAAAA, all three do agree on positions 0, 1, 2, 3. -/
theorem boyerMoore_disagrees_on_AAB :
    kmpSearch "AAB".toList "AB".toList = [1] ∧
    rabinKarpSearch "AAB".toList "AB".toList = [1] ∧
    boyerMooreSearch "AAB".toList "AB".toList = [] ∧
    kmpSearch "AAAAA".toList "AA".toList = [0, 1, 2, 3] ∧
    rabinKarpSearch "AAAAA".toList "AA".toList = [0, 1, 2, 3] ∧
    boyerMooreSearch "AAAAA".toList "AA".toList = [0, 1, 2, 3] := by decide

/-- C4: neither codec round-trips every input. Huffman: encode pads the
final byte with zero bits and decode consumes the padding as code bits,
so compressing aab (codes b as 0, a as 1, bit string 110 padded to the
byte 192 after the 255 marker) decodes to aabbbbbb. LZ77: when the best
match reaches the end of the text the emitted literal is the character at
index size, the null character, so compressing aa decodes to aa followed
by a null character. -/
theorem compression_roundtrip_fails :
    (huffmanCompress "aab".toList).1 = [255, 192] ∧
    huffmanDecompress (huffmanCompress "aab".toList).2 (huffmanCompress "aab".toList).1 =
      some "aabbbbbb".toList ∧
    "aabbbbbb".toList ≠ "aab".toList ∧
    lzDecompress (lzCompress "aa".toList) = ['a', 'a', Char.ofNat 0] ∧
    ['a', 'a', Char.ofNat 0] ≠ "aa".toList := by decide

/-- C6: a selection-replacing insert leaves the cursor at selection start
plus the inserted length, but does not always delete the whole selected
range: with fragments AB and CD and the selection from 1 to 3, insertText
XY erases only one character of the range (the eraseHelper slip of C2),
producing AXYCD instead of the specified AXYD; the cursor does end at 3. -/
theorem insertText_over_selection_incomplete_delete :
    (applyOps [.insertText "CD".toList, .moveCursorTo 0, .insertText "AB".toList,
        .moveCursorTo 1, .startSelection, .moveCursorTo 3, .endSelection,
        .insertText "XY".toList] TextEditor.init).map
      (fun e => (e.getFullText, e.cursorPosition)) = some ("AXYCD".toList, 3) ∧
    "AXYCD".toList ≠ "AXYD".toList := by decide

set_option maxHeartbeats 4000000 in
/-- C5 counterexample: two conjuncts of the claimed invariant fail.
Clamping: insertText Hello moves the cursor to 5, clearSelection collapses
the selection at 5, and backspace 3 shrinks the document to size 2 without
touching the selection, leaving both selection offsets at 5, outside the
claimed range up to the document size 2. Normalization: the reachable
trace opsC5norm ends in a state whose selection is the pair (32, 30), with
start strictly greater than end and never normalized before the next
operation would use it: the undo-history trim reverses the order of the
kept snapshots, an undo after a later mutation can therefore restore a
root whose cached subtree size no longer counts that mutation, a stale
selection parks the cursor beyond the cached size, and selectLine then
stores a line start computed from the actual text together with a line
end clamped to the smaller cached size. -/
theorem selection_not_clamped_after_shrink :
    ((applyOps [.insertText "Hello".toList, .clearSelection, .backspace 3]
        TextEditor.init).map (fun e => (e.selectionEnd, e.docSize)) = some (5, 2) ∧
      ¬ ((5 : Int) ≤ 2)) ∧
    ((applyOps opsC5norm TextEditor.init).map
        (fun e => (e.selectionStart, e.selectionEnd)) = some (32, 30) ∧
      ¬ ((32 : Int) ≤ 30)) := by decide

/-- C10: saveState pushes a snapshot only for a non-empty root, so a
single insert into an empty storage tree leaves the undo stack empty, and
undo then reports failure and leaves the tree exactly as it was: the
empty pre-insert state can never be restored. This holds for every insert
position and text. -/
theorem insert_into_empty_tree_leaves_no_undo (position : Int) (text : List Char) :
    (AVLTree.new.insert position text).undoStack = [] ∧
    (AVLTree.new.insert position text).undo = (false, AVLTree.new.insert position text) := by
  by_cases h : text = [] <;>
    simp [AVLTree.insert, AVLTree.saveState, AVLTree.new, AVLTree.undo, AVLTree.fuel,
      insertHelper, h]

/-- C8 counterexample: with the client not connected, checkGrammar does
not return the input text — it returns the empty grammar response, whose
corrected text is empty rather than the input Hello. The input-unchanged
behaviour belongs to correctGrammar. -/
theorem checkGrammar_offline_not_input :
    (offlineClient.checkGrammar "Hello".toList "en".toList false).corrected_text = [] ∧
    "Hello".toList ≠ ([] : List Char) := by decide

/-- C8 amended: when the client is not connected, checkGrammar returns
the empty grammar response (empty corrected text, no errors, no
suggestions), correctGrammar returns the input text unchanged, and
analyzeSentiment returns a neutral sentiment with confidence one half;
none of these calls can fail, since each returns before reaching the
transport. -/
theorem nlp_disconnected_defaults (c : NLPClient) (text language granularity : List Char)
    (autoCorrect : Bool) (h : c.connected = false) :
    c.checkGrammar text language autoCorrect = ⟨[], [], []⟩ ∧
    c.correctGrammar text language = text ∧
    c.analyzeSentiment text granularity = ⟨"neutral".toList, 1/2, [], []⟩ := by
  simp [NLPClient.checkGrammar, NLPClient.correctGrammar, NLPClient.analyzeSentiment, h]

/-- Witness for the amended C8 theorem at a concrete disconnected client
and concrete inputs. -/
theorem nlp_disconnected_defaults_witness :
    offlineClient.connected = false ∧
    (offlineClient.checkGrammar "Hi".toList "en".toList true = ⟨[], [], []⟩ ∧
     offlineClient.correctGrammar "Hi".toList "en".toList = "Hi".toList ∧
     offlineClient.analyzeSentiment "Hi".toList "document".toList =
       ⟨"neutral".toList, 1/2, [], []⟩) :=
  ⟨rfl, nlp_disconnected_defaults offlineClient "Hi".toList "en".toList "document".toList
    true rfl⟩

lemma cIsUpper_of_lower {c : Char} (h : cIsLower c = true) : cIsUpper c = false := by
  rcases hU : cIsUpper c
  · rfl
  · exfalso
    simp only [cIsLower, cIsUpper, Bool.and_eq_true, decide_eq_true_eq] at h hU
    omega

lemma cIsDigit_of_lower {c : Char} (h : cIsLower c = true) : cIsDigit c = false := by
  rcases hD : cIsDigit c
  · rfl
  · exfalso
    simp only [cIsLower, cIsDigit, Bool.and_eq_true, decide_eq_true_eq] at h hD
    omega

lemma cIsDigit_of_upper {c : Char} (h : cIsUpper c = true) : cIsDigit c = false := by
  rcases hD : cIsDigit c
  · rfl
  · exfalso
    simp only [cIsUpper, cIsDigit, Bool.and_eq_true, decide_eq_true_eq] at h hD
    omega

/-- An indicator term is at most one. -/
lemma indicator_le_one (c : Prop) [Decidable c] : (if c then 1 else 0) ≤ 1 := by
  split_ifs <;> omega


/-- The else-if chain of the character scan sets each flag exactly when
the corresponding class test holds: the three alphabetic and digit ranges
are pairwise disjoint, and a character that is none of lower, upper or
digit always fails the C isalnum test. -/
lemma classFlags_eq (p : List Char) :
    classFlags p =
      (p.any cIsLower, p.any cIsUpper, p.any cIsDigit, p.any (fun c => ¬ cIsAlnum c)) := by
  unfold classFlags
  suffices h : ∀ f : Bool × Bool × Bool × Bool,
      p.foldl
        (fun f c =>
          if cIsLower c then (true, f.2.1, f.2.2.1, f.2.2.2)
          else if cIsUpper c then (f.1, true, f.2.2.1, f.2.2.2)
          else if cIsDigit c then (f.1, f.2.1, true, f.2.2.2)
          else if ¬ cIsAlnum c then (f.1, f.2.1, f.2.2.1, true)
          else f)
        f =
      (f.1 || p.any cIsLower, f.2.1 || p.any cIsUpper, f.2.2.1 || p.any cIsDigit,
        f.2.2.2 || p.any (fun c => ¬ cIsAlnum c)) by
    simpa using h (false, false, false, false)
  induction p with
  | nil => intro f; simp
  | cons c rest ih =>
    intro f
    rw [List.foldl_cons, ih]
    rcases hL : cIsLower c
    · rcases hU : cIsUpper c
      · rcases hD : cIsDigit c
        · simp [hL, hU, hD, cIsAlnum]
        · simp [hL, hU, hD, cIsAlnum]
      · simp [hL, hU, cIsAlnum, cIsDigit_of_upper hU]
    · simp [hL, cIsAlnum, cIsUpper_of_lower hL, cIsDigit_of_lower hL]

set_option maxHeartbeats 2000000 in
/-- C7: checkPasswordStrength computes exactly the score of the
specification formula — one point each for length at least 8, 12, 16, and
one point each for containing a lowercase letter, an uppercase letter, a
digit, and a non-alphanumeric symbol — the score never exceeds 7, and the
strong flag holds exactly when the score is at least 6; in particular a
four-character all-lowercase password is not strong, and a 16-character
password containing all four character classes scores 7 and is strong. -/
theorem checkPasswordStrength_correct (p : List Char) :
    (checkPasswordStrength p).score = specPasswordScore p ∧
    (checkPasswordStrength p).score ≤ 7 ∧
    ((checkPasswordStrength p).isStrong = true ↔ 6 ≤ (checkPasswordStrength p).score) ∧
    (checkPasswordStrength "abcd".toList).isStrong = false ∧
    (checkPasswordStrength "aB3$aB3$aB3$aB3$".toList).score = 7 ∧
    (checkPasswordStrength "aB3$aB3$aB3$aB3$".toList).isStrong = true := by
  have hscore : (checkPasswordStrength p).score = specPasswordScore p := by
    simp only [checkPasswordStrength, specPasswordScore, classFlags_eq p]
    split_ifs <;> decide
  refine ⟨hscore, ?_, ?_, by decide, by decide, by decide⟩
  · rw [hscore]
    unfold specPasswordScore
    have h1 := indicator_le_one (8 ≤ p.length)
    have h2 := indicator_le_one (12 ≤ p.length)
    have h3 := indicator_le_one (16 ≤ p.length)
    have h4 := indicator_le_one (p.any cIsLower = true)
    have h5 := indicator_le_one (p.any cIsUpper = true)
    have h6 := indicator_le_one (p.any cIsDigit = true)
    have h7 := indicator_le_one (p.any (fun c => ¬ cIsAlnum c) = true)
    omega
  · simp only [checkPasswordStrength, decide_eq_true_eq]

/-! Lemmas about the in-order traversals of the storage tree, leading to
the equivalence of the two findText modes (C9). -/

lemma totalLen_nil : totalLen [] = 0 := rfl

lemma totalLen_nonneg (frags : List (List Char)) : 0 ≤ totalLen frags := by
  induction frags with
  | nil => simp [totalLen]
  | cons d rest ih => simp only [totalLen, List.foldr_cons] at *; positivity

lemma totalLen_cons (d : List Char) (rest : List (List Char)) :
    totalLen (d :: rest) = (d.length : Int) + totalLen rest := rfl

lemma totalLen_append (a b : List (List Char)) :
    totalLen (a ++ b) = totalLen a + totalLen b := by
  induction a with
  | nil => simp [totalLen]
  | cons d rest ih => simp only [List.cons_append, totalLen_cons, ih]; ring

lemma listOcc_append (a b : List (List Char)) (pattern : List Char) (cur : Int) :
    listOcc (a ++ b) pattern cur =
      listOcc a pattern cur ++ listOcc b pattern (cur + totalLen a) := by
  induction a generalizing cur with
  | nil => simp [listOcc, totalLen]
  | cons d rest ih =>
    simp only [List.cons_append, listOcc, List.append_eq, ih, totalLen_cons,
      List.append_assoc]
    congr 2
    ring_nf

lemma listCollect_append (a b : List (List Char)) (start length cur : Int) :
    listCollect (a ++ b) start length cur =
      listCollect a start length cur ++ listCollect b start length (cur + totalLen a) := by
  induction a generalizing cur with
  | nil => simp [listCollect, totalLen]
  | cons d rest ih =>
    simp only [List.cons_append, listCollect, List.append_eq, ih, totalLen_cons,
      List.append_assoc]
    congr 3
    ring_nf

lemma searchInNode_eq (fuel : Nat) (st : List AVLNode) (o : Option Nat)
    (pattern : List Char) (cur : Int) (acc : List Int) :
    searchInNode fuel st o pattern cur acc =
      (cur + totalLen (fragsOf fuel st o), acc ++ listOcc (fragsOf fuel st o) pattern cur) := by
  induction fuel generalizing o cur acc with
  | zero => simp [searchInNode, fragsOf, totalLen, listOcc]
  | succ fuel ih =>
    cases o with
    | none => simp [searchInNode, fragsOf, totalLen, listOcc]
    | some i =>
      simp only [searchInNode, fragsOf, ih, listOcc_append, totalLen_append, totalLen_cons,
        totalLen_nil, listOcc, List.append_eq, List.nil_append, List.append_assoc,
        List.append_nil, Prod.mk.injEq]
      constructor
      · ring
      · ring_nf

lemma collectText_eq (fuel : Nat) (st : List AVLNode) (o : Option Nat)
    (start length cur : Int) (acc : List Char) :
    collectText fuel st o start length cur acc =
      (cur + totalLen (fragsOf fuel st o),
        acc ++ listCollect (fragsOf fuel st o) start length cur) := by
  induction fuel generalizing o cur acc with
  | zero => simp [collectText, fragsOf, totalLen, listCollect]
  | succ fuel ih =>
    cases o with
    | none => simp [collectText, fragsOf, totalLen, listCollect]
    | some i =>
      simp only [collectText, ih, fragsOf, listCollect_append, totalLen_append, totalLen_cons,
        totalLen_nil, listCollect, List.append_eq, List.nil_append, List.append_assoc,
        List.append_nil, Prod.mk.injEq]
      constructor
      · ring
      · ring_nf


lemma strFindFrom_spec {data pattern : List Char} {pos p : Nat}
    (h : strFindFrom data pattern pos = some p) :
    pos ≤ p ∧ p + pattern.length ≤ data.length ∧
      (data.drop p).take pattern.length = pattern := by
  have hmem : p ∈ (List.range (data.length + 1)).filter
      (fun idx => pos ≤ idx ∧ idx + pattern.length ≤ data.length ∧
        (data.drop idx).take pattern.length = pattern) := by
    unfold strFindFrom at h
    exact List.mem_of_mem_head? (Option.mem_def.mpr h)
  have := List.of_mem_filter hmem
  simpa using this

lemma fragOccLoop_spec {data pattern : List Char} {q : Nat} :
    ∀ {fuel pos : Nat} {acc : List Nat}, q ∈ fragOccLoop data pattern fuel pos acc →
      q ∈ acc ∨ (q + pattern.length ≤ data.length ∧
        (data.drop q).take pattern.length = pattern) := by
  intro fuel
  induction fuel with
  | zero => intro pos acc h; exact Or.inl h
  | succ fuel ih =>
    intro pos acc h
    simp only [fragOccLoop] at h
    cases hf : strFindFrom data pattern pos with
    | none => rw [hf] at h; exact Or.inl h
    | some p =>
      rw [hf] at h
      rcases ih h with hacc | hgood
      · rcases List.mem_append.mp hacc with h1 | h2
        · exact Or.inl h1
        · have hqp : q = p := by simpa using h2
          subst hqp
          exact Or.inr ⟨(strFindFrom_spec hf).2.1, (strFindFrom_spec hf).2.2⟩
      · exact Or.inr hgood

lemma fragOcc_spec {data pattern : List Char} {q : Nat} (h : q ∈ fragOcc data pattern) :
    q + pattern.length ≤ data.length ∧ (data.drop q).take pattern.length = pattern := by
  rcases fragOccLoop_spec h with h0 | hgood
  · simp at h0
  · exact hgood

lemma listOcc_mem {frags : List (List Char)} {pattern : List Char} {p0 : Int} :
    ∀ {cur : Int}, p0 ∈ listOcc frags pattern cur →
      ∃ (a : List (List Char)) (d : List Char) (b : List (List Char)) (q : Nat),
        frags = a ++ d :: b ∧ p0 = cur + totalLen a + (q : Int) ∧
        q + pattern.length ≤ d.length ∧ (d.drop q).take pattern.length = pattern := by
  induction frags with
  | nil => intro cur h; simp [listOcc] at h
  | cons d rest ih =>
    intro cur h
    rcases List.mem_append.mp h with hmap | hrest
    · have hmap2 : ∃ (x : Int), (∃ q ∈ fragOcc d pattern, x = (q : Int)) ∧ cur + x = p0 := by
        simpa using hmap
      obtain ⟨x, ⟨q, hq, rfl⟩, hxe⟩ := hmap2
      subst hxe
      exact ⟨[], d, rest, q, by simp, by simp [totalLen_nil], (fragOcc_spec hq).1,
        (fragOcc_spec hq).2⟩
    · rcases ih hrest with ⟨a, d2, b, q, hfr, hp, hle, hsl⟩
      refine ⟨d :: a, d2, b, q, by simp [hfr], ?_, hle, hsl⟩
      rw [hp, totalLen_cons]
      ring

lemma listCollect_past {start length : Int} :
    ∀ (frags : List (List Char)) {cur : Int}, start + length ≤ cur →
      listCollect frags start length cur = [] := by
  intro frags
  induction frags with
  | nil => intro cur _; rfl
  | cons d rest ih =>
    intro cur h
    have h2 : ¬ (cur < start + length ∧ start < cur + (d.length : Int)) := by
      rintro ⟨h3, _⟩; omega
    simp only [listCollect, if_neg h2, List.nil_append]
    exact ih (by omega)

lemma listCollect_exact (d : List Char) (q len : Nat) (hlen : 1 ≤ len)
    (hin : q + len ≤ d.length) :
    ∀ (a b : List (List Char)) (cur : Int),
      listCollect (a ++ d :: b) (cur + totalLen a + (q : Int)) (len : Int) cur =
        (d.drop q).take len := by
  intro a
  induction a with
  | nil =>
    intro b cur
    have hg : cur < (cur + totalLen [] + (q : Int)) + (len : Int) ∧
        (cur + totalLen [] + (q : Int)) < cur + (d.length : Int) := by
      rw [totalLen_nil]
      constructor <;> omega
    have hs : max 0 ((cur + totalLen [] + (q : Int)) - cur) = (q : Int) := by
      rw [totalLen_nil]; omega
    have he : min (d.length : Int) ((cur + totalLen [] + (q : Int)) + (len : Int) - cur) =
        (q : Int) + (len : Int) := by
      rw [totalLen_nil]; omega
    simp only [List.nil_append, listCollect, hg, and_self, if_true, hs, he]
    have hlt : (q : Int) < (q : Int) + (len : Int) := by omega
    rw [if_pos hlt]
    have h1 : ((q : Int)).toNat = q := by omega
    have h2 : ((q : Int) + (len : Int) - (q : Int)).toNat = len := by omega
    rw [h1, h2]
    rw [listCollect_past b (by rw [totalLen_nil]; omega)]
    simp
  | cons f a ih =>
    intro b cur
    have hno : ¬ (cur < (cur + totalLen (f :: a) + (q : Int)) + (len : Int) ∧
        (cur + totalLen (f :: a) + (q : Int)) < cur + (f.length : Int)) := by
      rintro ⟨_, h2⟩
      rw [totalLen_cons] at h2
      have := totalLen_nonneg a
      omega
    simp only [List.cons_append, listCollect, if_neg hno, List.nil_append]
    have harr : cur + totalLen (f :: a) + (q : Int) =
        (cur + (f.length : Int)) + totalLen a + (q : Int) := by
      rw [totalLen_cons]; ring
    rw [harr]
    exact ih b (cur + (f.length : Int))

lemma findAll_reads_pattern {t : AVLTree} {pattern : List Char} (hpat : pattern ≠ [])
    {p : Int} (hp : p ∈ t.findAll pattern) :
    t.getText p (pattern.length : Int) = pattern := by
  unfold AVLTree.findAll at hp
  rw [searchInNode_eq] at hp
  simp only [List.nil_append] at hp
  rcases listOcc_mem hp with ⟨a, d, b, q, hfr, hp0, hle, hsl⟩
  unfold AVLTree.getText
  rw [collectText_eq]
  simp only [List.nil_append, hfr, hp0]
  have hlen : 1 ≤ pattern.length := by
    cases pattern with
    | nil => exact absurd rfl hpat
    | cons c cs => simp
  have h0 : (0 : Int) + totalLen a + (q : Int) = totalLen a + (q : Int) := by ring
  have hmain := listCollect_exact d q pattern.length hlen hle a b 0
  rw [h0] at hmain
  rw [h0, hmain, hsl]

theorem findText_modes_agree (e : TextEditor) (pattern : List Char)
    (hpat : pattern ≠ []) :
    e.findText pattern false = e.findText pattern true := by
  unfold TextEditor.findText
  cases hdoc : e.getCurrentDocument with
  | none => rfl
  | some d =>
    have key : ∀ p ∈ d.content.findAll pattern,
        lowerStr (d.content.getText p (pattern.length : Int)) = lowerStr pattern := by
      intro p hp
      rw [findAll_reads_pattern hpat hp]
    norm_num
    exact key

theorem findText_modes_agree_witness :
    ("X".toList ≠ ([] : List Char)) ∧
    TextEditor.findText
        ⟨[⟨"f".toList, "f".toList, false, AVLTree.new.insert 0 "aXbXa".toList⟩],
          0, 0, 0, 0, false, []⟩ "X".toList false =
      TextEditor.findText
        ⟨[⟨"f".toList, "f".toList, false, AVLTree.new.insert 0 "aXbXa".toList⟩],
          0, 0, 0, 0, false, []⟩ "X".toList true :=
  ⟨by decide,
    findText_modes_agree
      ⟨[⟨"f".toList, "f".toList, false, AVLTree.new.insert 0 "aXbXa".toList⟩],
        0, 0, 0, 0, false, []⟩ "X".toList (by decide)⟩


/-! Store-size non-negativity lemmas for the tree operations (C5). -/

lemma getNode_size_nonneg {st : List AVLNode} (h : storeNonneg st) (i : Nat) :
    0 ≤ (getNode st i).size := by
  unfold getNode
  rw [List.getD_eq_getElem?_getD]
  cases hg : st[i]? with
  | none => simp [hg]
  | some n =>
    have hg2 : st.get? i = some n := by rw [List.get?_eq_getElem?, hg]
    simpa [hg] using h n (List.get?_mem hg2)

lemma sizeOf'_nonneg {st : List AVLNode} (h : storeNonneg st) (o : Option Nat) :
    0 ≤ sizeOf' st o := by
  cases o with
  | none => simp [sizeOf']
  | some i => exact getNode_size_nonneg h i

lemma storeNonneg_set {st : List AVLNode} {n : AVLNode} (h : storeNonneg st)
    (hn : 0 ≤ n.size) (i : Nat) : storeNonneg (setNode st i n) := by
  intro m hm
  rcases List.mem_or_eq_of_mem_set hm with hmem | rfl
  · exact h m hmem
  · exact hn

lemma storeNonneg_alloc {st : List AVLNode} {n : AVLNode} (h : storeNonneg st)
    (hn : 0 ≤ n.size) : storeNonneg (st ++ [n]) := by
  intro m hm
  rcases List.mem_append.mp hm with hmem | hmem
  · exact h m hmem
  · simp at hmem; subst hmem; exact hn

lemma updateHeight_nonneg {st : List AVLNode} (h : storeNonneg st) (i : Nat) :
    storeNonneg (updateHeight st i) := by
  simp only [updateHeight]
  apply storeNonneg_set h
  exact getNode_size_nonneg h i

lemma updateSize_nonneg {st : List AVLNode} (h : storeNonneg st) (i : Nat) :
    storeNonneg (updateSize st i) := by
  simp only [updateSize]
  apply storeNonneg_set h
  have h1 := sizeOf'_nonneg h (getNode st i).left
  have h2 := sizeOf'_nonneg h (getNode st i).right
  show 0 ≤ ((getNode st i).data.length : Int) + sizeOf' st (getNode st i).left +
    sizeOf' st (getNode st i).right
  positivity

lemma rotateRight_nonneg {st : List AVLNode} (h : storeNonneg st) (y : Nat) :
    storeNonneg (rotateRight st y).1 := by
  unfold rotateRight
  cases hx : (getNode st y).left with
  | none => exact h
  | some x =>
    simp only []
    apply updateSize_nonneg
    apply updateHeight_nonneg
    apply updateSize_nonneg
    apply updateHeight_nonneg
    apply storeNonneg_set
    · apply storeNonneg_set h
      exact getNode_size_nonneg h x
    · apply getNode_size_nonneg
      apply storeNonneg_set h
      exact getNode_size_nonneg h x

lemma rotateLeft_nonneg {st : List AVLNode} (h : storeNonneg st) (x : Nat) :
    storeNonneg (rotateLeft st x).1 := by
  unfold rotateLeft
  cases hy : (getNode st x).right with
  | none => exact h
  | some y =>
    simp only []
    apply updateSize_nonneg
    apply updateHeight_nonneg
    apply updateSize_nonneg
    apply updateHeight_nonneg
    apply storeNonneg_set
    · apply storeNonneg_set h
      exact getNode_size_nonneg h y
    · apply getNode_size_nonneg
      apply storeNonneg_set h
      exact getNode_size_nonneg h y

lemma rotateLeftOpt_nonneg {st : List AVLNode} (h : storeNonneg st) (o : Option Nat) :
    storeNonneg (rotateLeftOpt st o).1 := by
  cases o with
  | none => exact h
  | some i => exact rotateLeft_nonneg h i

lemma rotateRightOpt_nonneg {st : List AVLNode} (h : storeNonneg st) (o : Option Nat) :
    storeNonneg (rotateRightOpt st o).1 := by
  cases o with
  | none => exact h
  | some i => exact rotateRight_nonneg h i

lemma balanceFix_nonneg {st : List AVLNode} (h : storeNonneg st) (o : Option Nat) :
    storeNonneg (balanceFix st o).1 := by
  cases o with
  | none => exact h
  | some i =>
    have h1 : storeNonneg (updateSize (updateHeight st i) i) :=
      updateSize_nonneg (updateHeight_nonneg h i) i
    unfold balanceFix
    simp only []
    split_ifs
    · exact rotateRight_nonneg h1 i
    · exact rotateLeft_nonneg h1 i
    · apply rotateRight_nonneg
      apply storeNonneg_set
      · exact rotateLeftOpt_nonneg h1 _
      · apply getNode_size_nonneg
        exact rotateLeftOpt_nonneg h1 _
    · apply rotateLeft_nonneg
      apply storeNonneg_set
      · exact rotateRightOpt_nonneg h1 _
      · apply getNode_size_nonneg
        exact rotateRightOpt_nonneg h1 _
    · exact h1

lemma insertHelper_nonneg (text : List Char) :
    ∀ (fuel : Nat) {st : List AVLNode} (o : Option Nat) (position : Int),
      storeNonneg st → storeNonneg (insertHelper text fuel st o position).1 := by
  intro fuel
  induction fuel with
  | zero => intro st o position h; exact h
  | succ fuel ih =>
    intro st o position h
    cases o with
    | none =>
      refine storeNonneg_alloc h ?_
      simp
    | some i =>
      simp only [insertHelper]
      split_ifs
      · apply balanceFix_nonneg
        apply storeNonneg_set
        · exact ih _ _ h
        · exact getNode_size_nonneg (ih _ _ h) i
      · apply balanceFix_nonneg
        apply updateSize_nonneg
        apply storeNonneg_set h
        exact getNode_size_nonneg h i
      · apply balanceFix_nonneg
        apply storeNonneg_set
        · exact ih _ _ h
        · exact getNode_size_nonneg (ih _ _ h) i

lemma eraseHelper_nonneg :
    ∀ (fuel : Nat) (length : Int) {st : List AVLNode} (o : Option Nat) (position : Int),
      storeNonneg st → storeNonneg (eraseHelper length fuel st o position).1 := by
  intro fuel
  induction fuel with
  | zero => intro length st o position h; exact h
  | succ fuel ih =>
    intro length st o position h
    cases o with
    | none => exact h
    | some i =>
      simp only [eraseHelper]
      split_ifs
      · apply balanceFix_nonneg
        apply storeNonneg_set
        · exact ih _ _ _ h
        · exact getNode_size_nonneg (ih _ _ _ h) i
      · apply balanceFix_nonneg
        apply storeNonneg_set
        · apply ih
          apply updateSize_nonneg
          apply storeNonneg_set h
          exact getNode_size_nonneg h i
        · apply getNode_size_nonneg
          apply ih
          apply updateSize_nonneg
          apply storeNonneg_set h
          exact getNode_size_nonneg h i
      · apply balanceFix_nonneg
        apply updateSize_nonneg
        apply storeNonneg_set h
        exact getNode_size_nonneg h i
      · apply balanceFix_nonneg
        apply storeNonneg_set
        · exact ih _ _ _ h
        · exact getNode_size_nonneg (ih _ _ _ h) i

lemma insert_store_nonneg {t : AVLTree} (h : storeNonneg t.store) (position : Int)
    (text : List Char) : storeNonneg (t.insert position text).store := by
  unfold AVLTree.insert
  split_ifs
  · exact h
  · exact insertHelper_nonneg text _ _ _ h

lemma erase_store_nonneg {t : AVLTree} (h : storeNonneg t.store) (position length : Int) :
    storeNonneg (t.erase position length).store := by
  unfold AVLTree.erase
  split_ifs
  · exact h
  · exact eraseHelper_nonneg _ _ _ _ h

lemma undo_store (t : AVLTree) : (t.undo).2.store = t.store := by
  unfold AVLTree.undo
  cases t.undoStack <;> rfl

lemma redo_store (t : AVLTree) : (t.redo).2.store = t.store := by
  unfold AVLTree.redo
  cases t.redoStack <;> rfl

lemma getSize_nonneg {t : AVLTree} (h : storeNonneg t.store) : 0 ≤ t.getSize :=
  sizeOf'_nonneg h t.root

lemma getLineStart_nonneg (t : AVLTree) (position : Int) : 0 ≤ t.getLineStart position := by
  unfold AVLTree.getLineStart
  cases strRFindNewline (t.getText 0 position) with
  | none => simp
  | some idx => positivity

lemma getLineEnd_nonneg {t : AVLTree} (h : storeNonneg t.store) {position : Int}
    (hp : 0 ≤ position) : 0 ≤ t.getLineEnd position := by
  unfold AVLTree.getLineEnd
  cases strFindNewline (t.getText position (t.getSize - position)) with
  | none => exact getSize_nonneg h
  | some idx => positivity

lemma selWordStart_nonneg (t : AVLTree) :
    ∀ (fuel : Nat) {start : Int}, 0 ≤ start → 0 ≤ selWordStart t fuel start := by
  intro fuel
  induction fuel with
  | zero => intro start h; exact h
  | succ fuel ih =>
    intro start h
    unfold selWordStart
    split_ifs with hc
    · exact ih (by omega)
    · exact h

lemma selWordEnd_nonneg (t : AVLTree) :
    ∀ (fuel : Nat) {stop : Int}, 0 ≤ stop → 0 ≤ selWordEnd t fuel stop := by
  intro fuel
  induction fuel with
  | zero => intro stop h; exact h
  | succ fuel ih =>
    intro stop h
    unfold selWordEnd
    split_ifs with hc
    · exact ih (by omega)
    · exact h


/-! Editor-level preservation of the session-state invariant (C5). -/

lemma getCurrentDocument_mem {e : TextEditor} {d : Document}
    (h : e.getCurrentDocument = some d) : d ∈ e.documents := by
  unfold TextEditor.getCurrentDocument at h
  split_ifs at h
  exact List.get?_mem h

lemma docsOK_setCurrentDocument {e : TextEditor}
    (hd : ∀ d2 ∈ e.documents, storeNonneg d2.content.store) {nd : Document}
    (hnd : storeNonneg nd.content.store) :
    ∀ d2 ∈ (e.setCurrentDocument nd).documents, storeNonneg d2.content.store := by
  intro d2 hd2
  unfold TextEditor.setCurrentDocument at hd2
  simp only [] at hd2
  rcases List.mem_or_eq_of_mem_set hd2 with hmem | rfl
  · exact hd d2 hmem
  · exact hnd

lemma einv_clearSelection {e : TextEditor} (h : einv e) : einv e.clearSelection :=
  ⟨h.1, h.1, h.1, h.2.2.2⟩

lemma einv_ensureValidCursorPosition {e : TextEditor} (h : einv e) :
    einv e.ensureValidCursorPosition := by
  unfold TextEditor.ensureValidCursorPosition
  split
  · exact h
  · exact ⟨le_max_left 0 _, h.2.1, h.2.2.1, h.2.2.2⟩

lemma einv_markDocumentModified {e : TextEditor} (h : einv e) :
    einv e.markDocumentModified := by
  unfold TextEditor.markDocumentModified
  split
  · exact h
  · next d heq =>
    exact ⟨h.1, h.2.1, h.2.2.1,
      docsOK_setCurrentDocument h.2.2.2 (h.2.2.2 d (getCurrentDocument_mem heq))⟩

lemma einv_deleteSelection {e : TextEditor} (h : einv e) : einv e.deleteSelection := by
  unfold TextEditor.deleteSelection
  split_ifs with hsel
  · split
    · exact h
    · next d heq =>
      refine einv_markDocumentModified (einv_clearSelection ⟨?_, ?_, ?_, ?_⟩)
      · exact h.2.1
      · exact h.2.1
      · exact h.2.2.1
      · exact docsOK_setCurrentDocument h.2.2.2
          (erase_store_nonneg (h.2.2.2 d (getCurrentDocument_mem heq)) _ _)
  · exact h

lemma einv_insertTextCore {eX : TextEditor} (h : einv eX) (text : List Char) :
    einv (match eX.getCurrentDocument with
          | none => eX
          | some d =>
            let e2 := eX.setCurrentDocument
              { d with content := d.content.insert eX.cursorPosition text }
            let e2 := { e2 with cursorPosition := e2.cursorPosition + (text.length : Int) }
            e2.markDocumentModified) := by
  split
  · exact h
  · next d heq =>
    refine einv_markDocumentModified ⟨?_, h.2.1, h.2.2.1, ?_⟩
    · have h1 := h.1
      show 0 ≤ eX.cursorPosition + (text.length : Int)
      omega
    · exact docsOK_setCurrentDocument h.2.2.2
        (insert_store_nonneg (h.2.2.2 d (getCurrentDocument_mem heq)) _ _)

lemma einv_insertText {e : TextEditor} (h : einv e) (text : List Char) :
    einv (e.insertText text) := by
  unfold TextEditor.insertText
  split
  · exact h
  · split
    · exact einv_insertTextCore (einv_deleteSelection h) text
    · exact einv_insertTextCore h text

lemma einv_deleteText {e : TextEditor} (h : einv e) (length : Int) :
    einv (e.deleteText length) := by
  unfold TextEditor.deleteText
  split
  · exact h
  · next d heq =>
    split_ifs with hsel
    · exact einv_deleteSelection h
    · dsimp only
      split_ifs with hact
      · refine einv_markDocumentModified ⟨h.1, h.2.1, h.2.2.1, ?_⟩
        exact docsOK_setCurrentDocument h.2.2.2
          (erase_store_nonneg (h.2.2.2 d (getCurrentDocument_mem heq)) _ _)
      · exact h

lemma einv_backspace {e : TextEditor} (h : einv e) (length : Int) :
    einv (e.backspace length) := by
  unfold TextEditor.backspace
  split
  · exact h
  · next d heq =>
    split_ifs with hsel
    · exact einv_deleteSelection h
    · dsimp only
      split_ifs with hact
      · refine einv_markDocumentModified ⟨?_, h.2.1, h.2.2.1, ?_⟩
        · have h1 := h.1
          show 0 ≤ e.cursorPosition - min length e.cursorPosition
          omega
        · exact docsOK_setCurrentDocument h.2.2.2
            (erase_store_nonneg (h.2.2.2 d (getCurrentDocument_mem heq)) _ _)
      · exact h

lemma einv_insertNewline {e : TextEditor} (h : einv e) : einv e.insertNewline :=
  einv_insertText h _

lemma einv_insertTab {e : TextEditor} (h : einv e) : einv e.insertTab :=
  einv_insertText h _

lemma einv_moveCursor {e : TextEditor} (h : einv e) (offset : Int) :
    einv (e.moveCursor offset) := by
  unfold TextEditor.moveCursor
  split
  · exact h
  · exact einv_ensureValidCursorPosition ⟨le_max_left 0 _, h.2.1, h.2.2.1, h.2.2.2⟩

lemma einv_moveCursorTo {e : TextEditor} (h : einv e) (position : Int) :
    einv (e.moveCursorTo position) := by
  unfold TextEditor.moveCursorTo
  split
  · exact h
  · exact einv_ensureValidCursorPosition ⟨le_max_left 0 _, h.2.1, h.2.2.1, h.2.2.2⟩

lemma einv_moveCursorToLineStart {e : TextEditor} (h : einv e) :
    einv e.moveCursorToLineStart := by
  unfold TextEditor.moveCursorToLineStart
  split
  · exact h
  · next d _ => exact ⟨getLineStart_nonneg d.content _, h.2.1, h.2.2.1, h.2.2.2⟩

lemma einv_moveCursorToLineEnd {e : TextEditor} (h : einv e) :
    einv e.moveCursorToLineEnd := by
  unfold TextEditor.moveCursorToLineEnd
  split
  · exact h
  · next d heq =>
    exact ⟨getLineEnd_nonneg (h.2.2.2 d (getCurrentDocument_mem heq)) h.1,
      h.2.1, h.2.2.1, h.2.2.2⟩

lemma einv_moveCursorToDocumentStart {e : TextEditor} (h : einv e) :
    einv e.moveCursorToDocumentStart :=
  ⟨le_refl 0, h.2.1, h.2.2.1, h.2.2.2⟩

lemma einv_moveCursorToDocumentEnd {e : TextEditor} (h : einv e) :
    einv e.moveCursorToDocumentEnd := by
  unfold TextEditor.moveCursorToDocumentEnd
  split
  · exact h
  · next d heq =>
    exact ⟨getSize_nonneg (h.2.2.2 d (getCurrentDocument_mem heq)), h.2.1, h.2.2.1, h.2.2.2⟩

lemma einv_moveCursorLeft {e : TextEditor} (h : einv e) : einv e.moveCursorLeft := by
  unfold TextEditor.moveCursorLeft
  split_ifs
  · exact einv_moveCursor h _
  · exact h

lemma einv_moveCursorRight {e : TextEditor} (h : einv e) : einv e.moveCursorRight := by
  unfold TextEditor.moveCursorRight
  split
  · exact h
  · split_ifs
    · exact einv_moveCursor h _
    · exact h

lemma einv_startSelection {e : TextEditor} (h : einv e) : einv e.startSelection :=
  ⟨h.1, h.1, h.1, h.2.2.2⟩

lemma einv_normalizeSelection {e : TextEditor} (h : einv e) : einv e.normalizeSelection := by
  unfold TextEditor.normalizeSelection
  split_ifs
  · exact ⟨h.1, h.2.2.1, h.2.1, h.2.2.2⟩
  · exact h

lemma einv_endSelection {e : TextEditor} (h : einv e) : einv e.endSelection := by
  unfold TextEditor.endSelection
  split_ifs
  · exact einv_normalizeSelection ⟨h.1, h.2.1, h.1, h.2.2.2⟩
  · exact h

lemma einv_selectLine {e : TextEditor} (h : einv e) : einv e.selectLine := by
  unfold TextEditor.selectLine
  split
  · exact h
  · next d heq =>
    exact ⟨h.1, getLineStart_nonneg d.content _,
      getLineEnd_nonneg (h.2.2.2 d (getCurrentDocument_mem heq)) h.1, h.2.2.2⟩

lemma einv_selectWord {e : TextEditor} (h : einv e) : einv e.selectWord := by
  unfold TextEditor.selectWord
  split
  · exact h
  · next d _ =>
    exact ⟨h.1, selWordStart_nonneg d.content _ h.1, selWordEnd_nonneg d.content _ h.1,
      h.2.2.2⟩

lemma einv_copy {e : TextEditor} (h : einv e) : einv e.copy := by
  unfold TextEditor.copy
  split_ifs
  · exact ⟨h.1, h.2.1, h.2.2.1, h.2.2.2⟩
  · exact h

lemma einv_cut {e : TextEditor} (h : einv e) : einv e.cut :=
  einv_deleteSelection (einv_copy h)

lemma einv_paste {e : TextEditor} (h : einv e) : einv e.paste := by
  unfold TextEditor.paste
  split_ifs
  · exact einv_insertText h _
  · exact h

lemma einv_undoOp {e : TextEditor} (h : einv e) : einv e.undoOp := by
  unfold TextEditor.undoOp
  split
  · exact h
  · next d heq =>
    have hs2 : storeNonneg (d.content.undo).2.store := by
      rw [undo_store]
      exact h.2.2.2 d (getCurrentDocument_mem heq)
    have h1 : einv (e.setCurrentDocument { d with content := (d.content.undo).2 }) :=
      ⟨h.1, h.2.1, h.2.2.1, docsOK_setCurrentDocument h.2.2.2 hs2⟩
    dsimp only
    split_ifs with hr
    · exact einv_ensureValidCursorPosition (einv_markDocumentModified h1)
    · exact h1

lemma einv_redoOp {e : TextEditor} (h : einv e) : einv e.redoOp := by
  unfold TextEditor.redoOp
  split
  · exact h
  · next d heq =>
    have hs2 : storeNonneg (d.content.redo).2.store := by
      rw [redo_store]
      exact h.2.2.2 d (getCurrentDocument_mem heq)
    have h1 : einv (e.setCurrentDocument { d with content := (d.content.redo).2 }) :=
      ⟨h.1, h.2.1, h.2.2.1, docsOK_setCurrentDocument h.2.2.2 hs2⟩
    dsimp only
    split_ifs with hr
    · exact einv_ensureValidCursorPosition (einv_markDocumentModified h1)
    · exact h1

lemma docsOK_newDoc {docs : List Document}
    (hd : ∀ d ∈ docs, storeNonneg d.content.store) :
    ∀ d ∈ docs ++ [Document.new], storeNonneg d.content.store := by
  intro d hmem
  rcases List.mem_append.mp hmem with hmem | hmem
  · exact hd d hmem
  · simp at hmem
    subst hmem
    intro n hn
    simp [Document.new, AVLTree.new] at hn

lemma einv_newDocument {e : TextEditor} (h : einv e) : einv e.newDocument :=
  einv_clearSelection ⟨le_refl 0, h.2.1, h.2.2.1, docsOK_newDoc h.2.2.2⟩

lemma einv_switchToDocument {e : TextEditor} (h : einv e) (index : Int) :
    einv (e.switchToDocument index) := by
  unfold TextEditor.switchToDocument
  split_ifs
  · exact einv_clearSelection ⟨le_refl 0, h.2.1, h.2.2.1, h.2.2.2⟩
  · exact h

lemma einv_closeDocument {e : TextEditor} (h : einv e) (index : Int) :
    einv (e.closeDocument index) := by
  have h1 : einv { e with documents := e.documents.eraseIdx index.toNat } := by
    refine ⟨h.1, h.2.1, h.2.2.1, ?_⟩
    intro d hmem
    exact h.2.2.2 d (List.eraseIdx_subset _ _ hmem)
  unfold TextEditor.closeDocument
  split_ifs <;> (try dsimp only) <;> (try split_ifs) <;>
    first
      | exact h
      | exact einv_clearSelection ⟨le_refl 0, h1.2.1, h1.2.2.1, h1.2.2.2⟩
      | exact einv_clearSelection ⟨le_refl 0,
          (einv_newDocument ⟨h1.1, h1.2.1, h1.2.2.1, h1.2.2.2⟩).2.1,
          (einv_newDocument ⟨h1.1, h1.2.1, h1.2.2.1, h1.2.2.2⟩).2.2.1,
          (einv_newDocument ⟨h1.1, h1.2.1, h1.2.2.1, h1.2.2.2⟩).2.2.2⟩

lemma mc_einv (fuel : Nat) :
    (∀ e line e2, einv e → mcToLine fuel e line = some e2 → einv e2) ∧
    (∀ e n e2, einv e → mcDownTimes fuel e n = some e2 → einv e2) ∧
    (∀ e n e2, einv e → mcUpTimes fuel e n = some e2 → einv e2) ∧
    (∀ e e2, einv e → mcDown fuel e = some e2 → einv e2) ∧
    (∀ e e2, einv e → mcUp fuel e = some e2 → einv e2) := by
  induction fuel with
  | zero =>
    refine ⟨?_, ?_, ?_, ?_, ?_⟩ <;> intros <;> simp_all [mcToLine, mcDownTimes,
      mcUpTimes, mcDown, mcUp]
  | succ fuel ih =>
    obtain ⟨ihT, ihD, ihU, ihd, ihu⟩ := ih
    refine ⟨?_, ?_, ?_, ?_, ?_⟩
    · intro e line e2 he hm
      simp only [mcToLine] at hm
      split at hm
      · cases hm; assumption
      · split_ifs at hm
        · exact ihD _ _ _ he hm
        · exact ihU _ _ _ he hm
        · cases hm; assumption
    · intro e n e2 he hm
      match n, hm with
      | 0, hm => cases hm; assumption
      | n+1, hm =>
        simp only [mcDownTimes] at hm
        split at hm
        · exact absurd hm (by simp)
        · next e3 heq => exact ihD _ _ _ (ihd _ _ he heq) hm
    · intro e n e2 he hm
      match n, hm with
      | 0, hm => cases hm; assumption
      | n+1, hm =>
        simp only [mcUpTimes] at hm
        split at hm
        · exact absurd hm (by simp)
        · next e3 heq => exact ihU _ _ _ (ihu _ _ he heq) hm
    · intro e e2 he hm
      simp only [mcDown] at hm
      split at hm
      · cases hm; assumption
      · split_ifs at hm
        · split at hm
          · exact absurd hm (by simp)
          · next e3 heq =>
            split at hm
            · cases hm; exact ihT _ _ _ he heq
            · cases hm; exact einv_moveCursorTo (ihT _ _ _ he heq) _
        · cases hm; assumption
    · intro e e2 he hm
      simp only [mcUp] at hm
      split at hm
      · cases hm; assumption
      · split_ifs at hm
        · split at hm
          · exact absurd hm (by simp)
          · next e3 heq =>
            split at hm
            · cases hm; exact ihT _ _ _ he heq
            · cases hm; exact einv_moveCursorTo (ihT _ _ _ he heq) _
        · cases hm; assumption

lemma einv_applyOp {op : EditorOp} {e e2 : TextEditor} (h : einv e)
    (hm : applyOp op e = some e2) : einv e2 := by
  cases op with
  | insertText text => cases hm; exact einv_insertText h text
  | deleteText length => cases hm; exact einv_deleteText h length
  | backspace length => cases hm; exact einv_backspace h length
  | insertNewline => cases hm; exact einv_insertNewline h
  | insertTab => cases hm; exact einv_insertTab h
  | moveCursor offset => cases hm; exact einv_moveCursor h offset
  | moveCursorTo position => cases hm; exact einv_moveCursorTo h position
  | moveCursorToLine line => exact (mc_einv 1000).1 _ _ _ h hm
  | moveCursorToLineStart => cases hm; exact einv_moveCursorToLineStart h
  | moveCursorToLineEnd => cases hm; exact einv_moveCursorToLineEnd h
  | moveCursorToDocumentStart => cases hm; exact einv_moveCursorToDocumentStart h
  | moveCursorToDocumentEnd => cases hm; exact einv_moveCursorToDocumentEnd h
  | moveCursorUp => exact (mc_einv 1000).2.2.2.2 _ _ h hm
  | moveCursorDown => exact (mc_einv 1000).2.2.2.1 _ _ h hm
  | moveCursorLeft => cases hm; exact einv_moveCursorLeft h
  | moveCursorRight => cases hm; exact einv_moveCursorRight h
  | startSelection => cases hm; exact einv_startSelection h
  | endSelection => cases hm; exact einv_endSelection h
  | clearSelection => cases hm; exact einv_clearSelection h
  | selectLine => cases hm; exact einv_selectLine h
  | selectWord => cases hm; exact einv_selectWord h
  | copy => cases hm; exact einv_copy h
  | cut => cases hm; exact einv_cut h
  | paste => cases hm; exact einv_paste h
  | undo => cases hm; exact einv_undoOp h
  | redo => cases hm; exact einv_redoOp h
  | deleteSelection => cases hm; exact einv_deleteSelection h
  | newDocument => cases hm; exact einv_newDocument h
  | switchToDocument index => cases hm; exact einv_switchToDocument h index
  | closeDocument index => cases hm; exact einv_closeDocument h index

lemma einv_applyOps {ops : List EditorOp} :
    ∀ {e e2 : TextEditor}, einv e → applyOps ops e = some e2 → einv e2 := by
  induction ops with
  | nil => intro e e2 h hm; cases hm; exact h
  | cons op rest ih =>
    intro e e2 h hm
    simp only [applyOps] at hm
    split at hm
    · exact absurd hm (by simp)
    · next e3 heq => exact ih (einv_applyOp h heq) hm

lemma einv_init : einv TextEditor.init := by
  unfold einv storeNonneg
  decide

/-- C5 amended: after any sequence of the public operations of the
claimed categories (editing, navigation, selection, clipboard, undo/redo,
document switching) from a fresh editor, the cursor offset and both
selection offsets are non-negative, and a selection is reported present
exactly when start differs from end. The two remaining conjuncts of the
original claim fail and are refuted by the counterexample: shrinking
operations never re-clamp the offsets to the document size, and the
normalization of the selection, though maintained by every selection
writer on accurately sized trees, is broken by selectLine in a reachable
state whose cached root size undercounts the text after the undo-history
trim reverses the snapshot order. -/
theorem editor_offsets_nonneg (ops : List EditorOp) (e2 : TextEditor)
    (h : applyOps ops TextEditor.init = some e2) :
    0 ≤ e2.cursorPosition ∧ 0 ≤ e2.selectionStart ∧ 0 ≤ e2.selectionEnd ∧
      (e2.hasSelection ↔ e2.selectionStart ≠ e2.selectionEnd) := by
  have he := einv_applyOps einv_init h
  exact ⟨he.1, he.2.1, he.2.2.1, Iff.rfl⟩

/-- Witness for the amended C5 theorem on a concrete operation sequence
exercising editing, selection, clipboard and shrinking operations. -/
theorem editor_offsets_nonneg_witness :
    0 ≤ ((applyOps [.insertText "Hello".toList, .clearSelection, .backspace 3]
        TextEditor.init).getD TextEditor.init).cursorPosition ∧
    0 ≤ ((applyOps [.insertText "Hello".toList, .clearSelection, .backspace 3]
        TextEditor.init).getD TextEditor.init).selectionStart ∧
    0 ≤ ((applyOps [.insertText "Hello".toList, .clearSelection, .backspace 3]
        TextEditor.init).getD TextEditor.init).selectionEnd ∧
    (((applyOps [.insertText "Hello".toList, .clearSelection, .backspace 3]
        TextEditor.init).getD TextEditor.init).hasSelection ↔
      ((applyOps [.insertText "Hello".toList, .clearSelection, .backspace 3]
        TextEditor.init).getD TextEditor.init).selectionStart ≠
      ((applyOps [.insertText "Hello".toList, .clearSelection, .backspace 3]
        TextEditor.init).getD TextEditor.init).selectionEnd) :=
  editor_offsets_nonneg [.insertText "Hello".toList, .clearSelection, .backspace 3] _
    (by decide)

end TextFlow
